import Mathlib

set_option maxHeartbeats 1000000

namespace CfPgbouncer

/-!
Shallow embedding of the configuration and auth-file loader of the
cf-pgbouncer repository (src/include/server.h, config/auth reading part).

C strings are modelled as `List Char` not containing the NUL character;
the in-place mutation of the C code is modelled by returning the suffix
and segment values the pointer arithmetic produces.  Registries
(users, databases, pools), which the source manipulates through external
helpers (find_user, add_user, add_database, get_pool, ...), are modelled
as association lists keyed by name, following the specification
("uniqueness by name within the registry", "keyed by (Target, Credential)
pair").  Out-of-memory failure paths are not modelled.
-/

/-! ### Character constants (written via code points to keep the file plain) -/

def spaceChar : Char := Char.ofNat 32
def squoteChar : Char := Char.ofNat 39
def dquoteChar : Char := Char.ofNat 34
def eqChar : Char := Char.ofNat 61
def dotChar : Char := Char.ofNat 46
def nlChar : Char := Char.ofNat 10
def semiChar : Char := Char.ofNat 59
def nulChar : Char := Char.ofNat 0
def minusChar : Char := Char.ofNat 45
def plusChar : Char := Char.ofNat 43

/-- C `isspace` on the standard six whitespace characters. -/
def isspace_c (c : Char) : Bool :=
  c == spaceChar || c == Char.ofNat 9 || c == nlChar ||
  c == Char.ofNat 11 || c == Char.ofNat 12 || c == Char.ofNat 13

/-! ### C standard library `atoi`, modelled from its C semantics:
skip whitespace, optional sign, leading decimal digits, 0 if none. -/

def atoiDigits : List Char → Int → Int
  | [], acc => acc
  | c :: rest, acc =>
    if c.isDigit then atoiDigits rest (acc * 10 + ((c.toNat : Int) - 48)) else acc

def atoi (s : String) : Int :=
  match s.data.dropWhile isspace_c with
  | [] => 0
  | c :: rest =>
    if c == minusChar then - atoiDigits rest 0
    else if c == plusChar then atoiDigits rest 0
    else atoiDigits (c :: rest) 0

/-- Modelled from the spec: libusual `cf_set_int` (not part of src/),
which parses the whole value with `strtol` and rejects partial numbers.
It succeeds exactly on an optionally signed, whitespace-prefixed run of
decimal digits covering the rest of the string. -/
def cf_parse_int (s : String) : Option Int :=
  match s.data.dropWhile isspace_c with
  | [] => none
  | c :: rest =>
    if c == minusChar then
      if !rest.isEmpty && rest.all Char.isDigit then some (- atoiDigits rest 0) else none
    else if c == plusChar then
      if !rest.isEmpty && rest.all Char.isDigit then some (atoiDigits rest 0) else none
    else
      if (c :: rest).all Char.isDigit then some (atoiDigits (c :: rest) 0) else none

/-! ### Pool modes -/

inductive PoolMode where
  | inherit
  | session
  | transaction
  | statement
deriving DecidableEq

/-- Modelled from the spec: `cf_set_lookup` over `pool_mode_map`
(not part of src/): the pooling-mode override is one of
session/transaction/statement, anything else is rejected
("invalid pool mode" in the source). -/
def pool_mode_lookup (v : String) : Option PoolMode :=
  if v = "session" then some PoolMode.session
  else if v = "transaction" then some PoolMode.transaction
  else if v = "statement" then some PoolMode.statement
  else none

/-! ### ConnString parsing (`cstr_*` in the source) -/

/-- `cstr_skip_ws`: skip spaces. -/
def cstr_skip_ws (p : List Char) : List Char := p.dropWhile (· == spaceChar)

def keyEndChar (c : Char) : Bool := c == eqChar || c == spaceChar

/-- `cstr_get_key`: parameter name before the
equals sign; fails when the name is empty or no equals sign follows.
Returns the key and the position after the equals sign. -/
def cstr_get_key (p : List Char) : Option (List Char × List Char) :=
  let p1 := cstr_skip_ws p
  let key := p1.takeWhile (fun c => !keyEndChar c)
  let r2 := cstr_skip_ws (p1.dropWhile (fun c => !keyEndChar c))
  if r2.head? == some eqChar && !key.isEmpty then some (key, r2.tail) else none

/-- `cstr_unquote_value`: value after the opening single quote; a doubled
quote stands for one quote, an unterminated value fails.  Returns the
unquoted value and the position after the closing quote. -/
def cstr_unquote_value : List Char → Option (List Char × List Char)
  | [] => none
  | [c] => if c == squoteChar then some ([], []) else none
  | c :: c2 :: rest2 =>
    if c == squoteChar then
      if c2 == squoteChar then
        match cstr_unquote_value rest2 with
        | some (v, r) => some (squoteChar :: v, r)
        | none => none
      else some ([], c2 :: rest2)
    else
      match cstr_unquote_value (c2 :: rest2) with
      | some (v, r) => some (c :: v, r)
      | none => none

/-- `cstr_get_value`: value, possibly quoted; empty values are
disallowed.  When the value is ended by a non-EOL character that
character is consumed (the source cuts the string there). -/
def cstr_get_value (p : List Char) : Option (List Char × List Char) :=
  match cstr_skip_ws p with
  | [] => none
  | c :: rest =>
    if c == squoteChar then
      match cstr_unquote_value rest with
      | none => none
      | some (v, r) =>
        if v.isEmpty then none
        else some (v, r.tail)
    else
      let p1 := c :: rest
      let v := p1.takeWhile (· != spaceChar)
      let r := p1.dropWhile (· != spaceChar)
      if v.isEmpty then none else some (v, r.tail)

inductive CstrPairResult where
  | err : CstrPairResult
  | eof : CstrPairResult
  | pair (key val rest : List Char) : CstrPairResult
deriving DecidableEq

/-- `cstr_get_pair`: one key=value pair from the connection string;
`eof` corresponds to the C result with `*key = 0`. -/
def cstr_get_pair (p : List Char) : CstrPairResult :=
  match cstr_skip_ws p with
  | [] => CstrPairResult.eof
  | c :: rest =>
    match cstr_get_key (c :: rest) with
    | none => CstrPairResult.err
    | some (key, r) =>
      match cstr_get_value r with
      | none => CstrPairResult.err
      | some (val, r2) => CstrPairResult.pair key val (cstr_skip_ws r2)

/-! Length facts used for the fuelled loops below. -/

theorem length_dropWhile_le' (q : Char → Bool) (l : List Char) :
    (l.dropWhile q).length ≤ l.length := by
  induction l with
  | nil => simp [List.dropWhile]
  | cons c rest ih =>
    simp only [List.dropWhile]
    cases q c
    · simp
    · exact le_trans ih (Nat.le_succ _)

theorem cstr_skip_ws_length_le (p : List Char) :
    (cstr_skip_ws p).length ≤ p.length := length_dropWhile_le' _ p

theorem cstr_get_key_length_lt {p k r : List Char}
    (h : cstr_get_key p = some (k, r)) : r.length < p.length := by
  simp only [cstr_get_key] at h
  split at h
  case isTrue hcond =>
    have hkr : r = (cstr_skip_ws ((cstr_skip_ws p).dropWhile fun c => !keyEndChar c)).tail := by
      cases h; rfl
    have hne : cstr_skip_ws ((cstr_skip_ws p).dropWhile fun c => !keyEndChar c) ≠ [] := by
      intro hnil
      rw [hnil] at hcond
      simp at hcond
    have h0 : (cstr_skip_ws ((cstr_skip_ws p).dropWhile fun c => !keyEndChar c)).length ≤ p.length :=
      calc (cstr_skip_ws ((cstr_skip_ws p).dropWhile fun c => !keyEndChar c)).length
          ≤ ((cstr_skip_ws p).dropWhile fun c => !keyEndChar c).length := cstr_skip_ws_length_le _
        _ ≤ (cstr_skip_ws p).length := length_dropWhile_le' _ _
        _ ≤ p.length := cstr_skip_ws_length_le p
    have h1 : (cstr_skip_ws ((cstr_skip_ws p).dropWhile fun c => !keyEndChar c)).tail.length + 1 =
        (cstr_skip_ws ((cstr_skip_ws p).dropWhile fun c => !keyEndChar c)).length := by
      rcases hq : cstr_skip_ws ((cstr_skip_ws p).dropWhile fun c => !keyEndChar c) with _ | ⟨c, rest⟩
      · exact absurd hq hne
      · simp
    rw [hkr]
    omega
  case isFalse => exact absurd h (by simp)

theorem cstr_unquote_value_length_le : ∀ (p : List Char) {v r : List Char},
    cstr_unquote_value p = some (v, r) → r.length ≤ p.length
  | [], _, _, h => absurd h (by simp [cstr_unquote_value])
  | [c], v, r, h => by
    simp only [cstr_unquote_value] at h
    by_cases hc : (c == squoteChar) = true
    · rw [if_pos hc] at h; cases h; simp
    · rw [if_neg hc] at h; exact absurd h (by simp)
  | c :: c2 :: rest2, v, r, h => by
    simp only [cstr_unquote_value] at h
    by_cases hc : (c == squoteChar) = true
    · rw [if_pos hc] at h
      by_cases hc2 : (c2 == squoteChar) = true
      · rw [if_pos hc2] at h
        rcases hu : cstr_unquote_value rest2 with _ | ⟨v2, r2⟩
        · rw [hu] at h; exact absurd h (by simp)
        · rw [hu] at h
          cases h
          have := cstr_unquote_value_length_le rest2 hu
          simp only [List.length_cons]
          omega
      · rw [if_neg hc2] at h
        cases h
        simp
    · rw [if_neg hc] at h
      rcases hu : cstr_unquote_value (c2 :: rest2) with _ | ⟨v2, r2⟩
      · rw [hu] at h; exact absurd h (by simp)
      · rw [hu] at h
        cases h
        have := cstr_unquote_value_length_le (c2 :: rest2) hu
        simp only [List.length_cons] at this ⊢
        omega

theorem cstr_get_value_length_le {p v r : List Char}
    (h : cstr_get_value p = some (v, r)) : r.length ≤ p.length := by
  simp only [cstr_get_value] at h
  split at h
  · exact absurd h (by simp)
  next c rest hm =>
    have hrest : (c :: rest).length ≤ p.length := by
      rw [← hm]; exact cstr_skip_ws_length_le p
    by_cases hc : (c == squoteChar) = true
    · rw [if_pos hc] at h
      split at h
      · exact absurd h (by simp)
      next v0 r0 hu =>
        split at h
        · exact absurd h (by simp)
        · cases h
          have h1 := cstr_unquote_value_length_le rest hu
          have h2 : r0.tail.length ≤ r0.length := by
            cases r0 <;> simp
          simp only [List.length_cons] at hrest
          omega
    · rw [if_neg hc] at h
      split at h
      · exact absurd h (by simp)
      · cases h
        have h1 : ((c :: rest).dropWhile (· != spaceChar)).length ≤ (c :: rest).length :=
          length_dropWhile_le' _ _
        have h2 : ((c :: rest).dropWhile (· != spaceChar)).tail.length ≤
            ((c :: rest).dropWhile (· != spaceChar)).length := by
          cases hd : (c :: rest).dropWhile (· != spaceChar) <;> simp
        omega

theorem cstr_get_pair_length_lt {p k v rest : List Char}
    (h : cstr_get_pair p = CstrPairResult.pair k v rest) : rest.length < p.length := by
  simp only [cstr_get_pair] at h
  split at h
  · exact absurd h (by simp)
  next c rest0 hm =>
    split at h
    · exact absurd h (by simp)
    next key r hk =>
      split at h
      · exact absurd h (by simp)
      next val r2 hv =>
        cases h
        have h1 : (cstr_skip_ws r2).length ≤ r2.length := cstr_skip_ws_length_le r2
        have h2 := cstr_get_value_length_le hv
        have h3 := cstr_get_key_length_lt hk
        have h4 : (cstr_skip_ws p).length ≤ p.length := cstr_skip_ws_length_le p
        rw [hm] at h4
        simp only [List.length_cons] at h3 h4
        omega

/-! ### The `while (*p) { cstr_get_pair; ... }` loops of the source.

All three config entry points run the same loop: read one key=value
pair, stop with success at end of input, stop with failure on a parse
error or when the pair cannot be applied.  The loop is modelled with a
fuel argument (the loop consumes at least one character per iteration,
so `length + 1` fuel always suffices; `kv_run_eq_parse` below relates any
sufficient fuel to the pair-list view and is independent of the exact
fuel). -/

def kv_run {α : Type} (f : α → String → String → Option α) : Nat → α → List Char → Option α
  | 0, _, _ => none
  | fuel + 1, a, p =>
    match cstr_get_pair p with
    | CstrPairResult.err => none
    | CstrPairResult.eof => some a
    | CstrPairResult.pair key val rest =>
      match f a (String.mk key) (String.mk val) with
      | none => none
      | some a2 => kv_run f fuel a2 rest

def kv_loop {α : Type} (f : α → String → String → Option α) (a : α) (p : List Char) : Option α :=
  kv_run f (p.length + 1) a p

/-- The same loop, merely collecting the parsed pairs (the specification
view of a connection string). -/
def pairs_run : Nat → List Char → Option (List (String × String))
  | 0, _ => none
  | fuel + 1, p =>
    match cstr_get_pair p with
    | CstrPairResult.err => none
    | CstrPairResult.eof => some []
    | CstrPairResult.pair key val rest =>
      match pairs_run fuel rest with
      | none => none
      | some l => some ((String.mk key, String.mk val) :: l)

def parsePairs (p : List Char) : Option (List (String × String)) :=
  pairs_run (p.length + 1) p

def foldPairs {α : Type} (f : α → String → String → Option α) : α → List (String × String) → Option α
  | a, [] => some a
  | a, (k, v) :: rest =>
    match f a k v with
    | none => none
    | some a2 => foldPairs f a2 rest

theorem kv_run_eq_parse {α : Type} (f : α → String → String → Option α) :
    ∀ (fuel : Nat) (a : α) (p : List Char), p.length < fuel →
    kv_run f fuel a p = (pairs_run fuel p).bind (fun l => foldPairs f a l) := by
  intro fuel
  induction fuel with
  | zero => intro a p h; omega
  | succ n ih =>
    intro a p h
    rcases hp : cstr_get_pair p with _ | _ | ⟨key, val, rest⟩
    · simp [kv_run, pairs_run, hp]
    · simp [kv_run, pairs_run, hp, foldPairs]
    · have hlt := cstr_get_pair_length_lt hp
      rcases hf : f a (String.mk key) (String.mk val) with _ | a2
      · rcases hq : pairs_run n rest with _ | l
        · simp [kv_run, pairs_run, hp, hq, hf]
        · simp [kv_run, pairs_run, hp, hq, hf, foldPairs]
      · have hih := ih a2 rest (by omega)
        rcases hq : pairs_run n rest with _ | l
        · rw [hq] at hih
          simp only [Option.bind] at hih
          simp [kv_run, pairs_run, hp, hq, hf, hih]
        · rw [hq] at hih
          simp only [Option.bind] at hih
          simp [kv_run, pairs_run, hp, hq, hf, hih, foldPairs]

theorem kv_loop_eq_parse {α : Type} (f : α → String → String → Option α) (a : α) (p : List Char) :
    kv_loop f a p = (parsePairs p).bind (fun l => foldPairs f a l) :=
  kv_run_eq_parse f (p.length + 1) a p (Nat.lt_succ_self _)

/-! ### Data model: users, databases, pools, loader state -/

structure PgUser where
  name : String
  passwd : String
  pool_mode : PoolMode
  max_user_connections : Int
  from_auth_file : Bool
deriving DecidableEq

structure PgDatabase where
  name : String
  /-- `db->dbname`; NULL until the database has been configured once. -/
  dbname : Option String
  host : Option String
  port : Int
  /-- `db->forced_user`: the fake user object `force_user` creates,
  carrying the forced name and password. -/
  forced_user : Option (String × String)
  pool_size : Int
  min_pool_size : Int
  res_pool_size : Int
  max_db_connections : Int
  pool_mode : PoolMode
  connect_query : Option String
  /-- `db->startup_params`: the pktbuf contents as the list of strings
  written by `pktbuf_put_string`, in order. -/
  startup_params : Option (List String)
  /-- `db->auth_user`, by name. -/
  auth_user : Option String
  db_dead : Bool
  db_auto : Bool
  inactive_time : Int
  /-- The "dirty" flag `tag_database_dirty` sets. -/
  dirty : Bool
deriving DecidableEq

structure PgPool where
  db_name : String
  user_name : String
  pool_size : Int
deriving DecidableEq

structure LoaderState where
  users : List PgUser
  databases : List PgDatabase
  pools : List PgPool
  /-- `cf_autodb_connstr`. -/
  autodb_connstr : Option String
  /-- The flag `tag_autodb_dirty` sets. -/
  autodb_dirty : Bool
deriving DecidableEq

/-- Modelled from the spec: `find_user` (not part of src/) looks an
identity up by name; "uniqueness by name within the registry". -/
def find_user (users : List PgUser) (name : String) : Option PgUser :=
  users.find? (fun u => u.name == name)

/-- A freshly created user object (zero-initialised except name and
password, as `add_user` creates it). -/
def freshUser (name passwd : String) : PgUser :=
  { name := name, passwd := passwd, pool_mode := PoolMode.inherit,
    max_user_connections := -1, from_auth_file := false }

/-- Modelled from the spec: `add_user` (not part of src/).  Identities
are "created/updated by the external loader": an existing entry of that
name gets the new password, otherwise a new entry is appended. -/
def add_user (users : List PgUser) (name passwd : String) : List PgUser :=
  if (find_user users name).isSome then
    users.map (fun u => if u.name = name then { u with passwd := passwd } else u)
  else
    users ++ [freshUser name passwd]

/-- Modelled from the spec: `find_database` (not part of src/); a Target
is looked up by its logical name, "name is the unique key". -/
def find_database (dbs : List PgDatabase) (name : String) : Option PgDatabase :=
  dbs.find? (fun d => d.name == name)

/-- A freshly created (zero-initialised) database object. -/
def freshDatabase (name : String) : PgDatabase :=
  { name := name, dbname := none, host := none, port := 0, forced_user := none,
    pool_size := 0, min_pool_size := 0, res_pool_size := 0, max_db_connections := 0,
    pool_mode := PoolMode.inherit, connect_query := none, startup_params := none,
    auth_user := none, db_dead := false, db_auto := false, inactive_time := 0,
    dirty := false }

/-- Modelled from the spec: `add_database` (not part of src/) returns the
registry entry of that name, creating a fresh one when absent. -/
def add_database (dbs : List PgDatabase) (name : String) : PgDatabase × List PgDatabase :=
  match find_database dbs name with
  | some db => (db, dbs)
  | none => (freshDatabase name, dbs ++ [freshDatabase name])

/-- Writing the (pointer-)mutated database object back into the
registry: every entry of that name is replaced. -/
def store_database (dbs : List PgDatabase) (db : PgDatabase) : List PgDatabase :=
  dbs.map (fun d => if d.name = db.name then db else d)

/-! ### parse_database -/

/-- The local variables of `parse_database` accumulated over the
connection-string pairs, with their initial values in `initDbParams`. -/
structure DbParams where
  dbname : String
  host : Option String
  port : Int
  username : Option String
  password : String
  auth_username : Option String
  client_encoding : Option String
  datestyle : Option String
  timezone : Option String
  connect_query : Option String
  appname : Option String
  pool_size : Int
  min_pool_size : Int
  res_pool_size : Int
  max_db_connections : Int
  pool_mode : PoolMode
deriving DecidableEq

def initDbParams (name : String) : DbParams :=
  { dbname := name, host := none, port := 5432, username := none, password := "",
    auth_username := none, client_encoding := none, datestyle := none,
    timezone := none, connect_query := none, appname := none,
    pool_size := -1, min_pool_size := -1, res_pool_size := -1,
    max_db_connections := -1, pool_mode := PoolMode.inherit }

/-- One iteration of the key dispatch in `parse_database`'s loop
(server.h lines 252-302): each recognized key updates the matching
local, an invalid port or pool mode fails, an unrecognized key fails. -/
def db_apply_pair (ps : DbParams) (key val : String) : Option DbParams :=
  if key = "dbname" then some { ps with dbname := val }
  else if key = "host" then some { ps with host := some val }
  else if key = "port" then
    if atoi val = 0 then none else some { ps with port := atoi val }
  else if key = "user" then some { ps with username := some val }
  else if key = "password" then some { ps with password := val }
  else if key = "auth_user" then some { ps with auth_username := some val }
  else if key = "client_encoding" then some { ps with client_encoding := some val }
  else if key = "datestyle" then some { ps with datestyle := some val }
  else if key = "timezone" then some { ps with timezone := some val }
  else if key = "pool_size" then some { ps with pool_size := atoi val }
  else if key = "min_pool_size" then some { ps with min_pool_size := atoi val }
  else if key = "reserve_pool" then some { ps with res_pool_size := atoi val }
  else if key = "max_db_connections" then some { ps with max_db_connections := atoi val }
  else if key = "pool_mode" then
    (pool_mode_lookup val).map (fun m => { ps with pool_mode := m })
  else if key = "connect_query" then some { ps with connect_query := some val }
  else if key = "application_name" then some { ps with appname := some val }
  else none

/-- The change check of `parse_database` (server.h lines 317-339),
performed only when the database was already configured: dbname, host,
port, forced user name and connect_query are compared; nothing else is. -/
def db_changed (db : PgDatabase) (ps : DbParams) : Bool :=
  decide (db.dbname ≠ some ps.dbname) ||
  decide (ps.host ≠ db.host) ||
  decide (ps.port ≠ db.port) ||
  decide (ps.username ≠ db.forced_user.map Prod.fst) ||
  decide (ps.connect_query ≠ db.connect_query)

/-- The startup-parameter message rebuilt by `parse_database`
(server.h lines 352-384): "database" with the effective dbname, then
client_encoding, datestyle, timezone, application_name when present. -/
def optParam (k : String) : Option String → List String
  | some v => [k, v]
  | none => []

def startup_list (ps : DbParams) : List String :=
  ["database", ps.dbname] ++ optParam "client_encoding" ps.client_encoding ++
  optParam "datestyle" ps.datestyle ++ optParam "timezone" ps.timezone ++
  optParam "application_name" ps.appname

/-- The net effect of the field assignments of `parse_database` after a
successful parse (server.h lines 311-405) on the database object:
liveness flags reset, the dirty tag set when the change check fires on a
previously configured record, every override replaced, the startup
parameters rebuilt, auth_user and forced user updated, dbname
remembered.  A present forced user is kept when the connection string
names none ("losing forced user not supported"). -/
def db_update (db : PgDatabase) (ps : DbParams) : PgDatabase :=
  { name := db.name
    dbname := some ps.dbname
    host := ps.host
    port := ps.port
    forced_user :=
      match ps.username with
      | some u => some (u, ps.password)
      | none => db.forced_user
    pool_size := ps.pool_size
    min_pool_size := ps.min_pool_size
    res_pool_size := ps.res_pool_size
    max_db_connections := ps.max_db_connections
    pool_mode := ps.pool_mode
    connect_query := ps.connect_query
    startup_params := some (startup_list ps)
    auth_user := ps.auth_username
    db_dead := false
    db_auto := false
    inactive_time := 0
    dirty := db.dirty || (db.dbname.isSome && db_changed db ps) }

/-- `set_autodb` (server.h lines 177-195): replace the global autodb
connection string, tagging autodbs dirty when it changed. -/
def set_autodb (st : LoaderState) (connstr : String) : LoaderState :=
  match st.autodb_connstr with
  | some old =>
    { st with autodb_connstr := some connstr,
              autodb_dirty := st.autodb_dirty || decide (connstr ≠ old) }
  | none => { st with autodb_connstr := some connstr }

/-- The user-registry side effect of `parse_database` (server.h lines
386-393): a named auth_user is looked up and created with an empty
password when missing. -/
def db_auth_users (users : List PgUser) : Option String → List PgUser
  | some au => if (find_user users au).isSome then users else add_user users au ""
  | none => users

/-- `parse_database` (server.h lines 198-412). -/
def parse_database (st : LoaderState) (name connstr : String) : Bool × LoaderState :=
  if name = "pgbouncer" then (false, st)
  else if name = "*" then (true, set_autodb st connstr)
  else
    match kv_loop db_apply_pair (initDbParams name) connstr.data with
    | none => (false, st)
    | some ps =>
      (true,
        { st with
          databases := store_database (add_database st.databases name).2
            (db_update (add_database st.databases name).1 ps)
          users := db_auth_users st.users ps.auth_username })

/-! ### parse_user -/

/-- `get_preconfigured_user` (server.h lines 414-435): the existing
registry entry of that name, else a new one with an empty password
("represents a user pre-configuration").  Returns the user object the C
pointer designates together with the updated registry. -/
def get_preconfigured_user (users : List PgUser) (name : String) : PgUser × List PgUser :=
  match find_user users name with
  | some u => (u, users)
  | none => (freshUser name "", add_user users name "")

structure UserParams where
  pool_mode : PoolMode
  max_user_connections : Int
deriving DecidableEq

def initUserParams : UserParams :=
  { pool_mode := PoolMode.inherit, max_user_connections := -1 }

/-- The key dispatch of `parse_user`'s loop (server.h lines 469-482):
pool_mode and max_user_connections are recognized, anything else fails. -/
def user_apply_pair (ps : UserParams) (key val : String) : Option UserParams :=
  if key = "pool_mode" then
    (pool_mode_lookup val).map (fun m => { ps with pool_mode := m })
  else if key = "max_user_connections" then
    (cf_parse_int val).map (fun n => { ps with max_user_connections := n })
  else none

def set_user_cf (users : List PgUser) (name : String) (up : UserParams) : List PgUser :=
  users.map (fun u =>
    if u.name = name then
      { u with pool_mode := up.pool_mode, max_user_connections := up.max_user_connections }
    else u)

/-- `parse_user` (server.h lines 437-499). -/
def parse_user (st : LoaderState) (name connstr : String) : Bool × LoaderState :=
  if connstr = "" then (false, st)
  else
    match kv_loop user_apply_pair initUserParams connstr.data with
    | none => (false, st)
    | some up =>
      (true, { st with users := set_user_cf (get_preconfigured_user st.users name).2 name up })

/-! ### parse_pool -/

/-- C `strtok(.., ".")` splitting: the successive non-empty tokens
between runs of the delimiter. -/
def strtok_run (d : Char) : Nat → List Char → List (List Char)
  | 0, _ => []
  | fuel + 1, p =>
    match p.dropWhile (· == d) with
    | [] => []
    | c :: rest =>
      (c :: rest).takeWhile (· != d) ::
        strtok_run d fuel ((c :: rest).dropWhile (· != d))

def strtok_split (d : Char) (p : List Char) : List (List Char) :=
  strtok_run d (p.length + 1) p

/-- `parse_pool_name` (server.h lines 501-520): the name must not begin
or end with a dot and must strtok-split into exactly a user token and a
database token. -/
def parse_pool_name (p : List Char) : Option (String × String) :=
  if p.head? == some dotChar || p.getLast? == some dotChar then none
  else
    match strtok_split dotChar p with
    | [u, d] => some (String.mk u, String.mk d)
    | _ => none

structure PoolParams where
  pool_size : Int
deriving DecidableEq

/-- The key dispatch of `parse_pool`'s loop (server.h lines 587-595):
only pool_size is recognized. -/
def pool_apply_pair (ps : PoolParams) (key val : String) : Option PoolParams :=
  if key = "pool_size" then
    (cf_parse_int val).map (fun n => { ps with pool_size := n })
  else none

/-- Modelled from the spec: `register_auto_database` (not part of src/).
"Autodb: a wildcard target definition that auto-instantiates concrete
targets on first reference": when an autodb connection string is
configured, the new name is parsed against it and the resulting record
is marked auto-created; without one nothing happens. -/
def register_auto_database (st : LoaderState) (name : String) : Option PgDatabase × LoaderState :=
  match st.autodb_connstr with
  | none => (none, st)
  | some cs =>
    match parse_database st name cs with
    | (false, st2) => (none, st2)
    | (true, st2) =>
      match find_database st2.databases name with
      | none => (none, st2)
      | some db =>
        ((some { db with db_auto := true }),
          { st2 with databases := store_database st2.databases { db with db_auto := true } })

/-- `get_preconfigured_database` (server.h lines 522-545): the existing
entry, else a new database assumed to be an autodb.  The returned record
is the registry entry of that name (the C pointer). -/
def get_preconfigured_database (st : LoaderState) (name : String) : PgDatabase × LoaderState :=
  match find_database st.databases name with
  | some db => (db, st)
  | none =>
    match register_auto_database
        { st with databases := (add_database st.databases name).2 } name with
    | (some adb, st3) => (adb, st3)
    | (none, st3) =>
      ((find_database st3.databases name).getD (add_database st.databases name).1, st3)

/-- Modelled from the spec: `get_pool` (not part of src/); a Pool is
"keyed by (Target, Credential) pair", "created on first reference". -/
def get_pool (pools : List PgPool) (dbn un : String) : PgPool × List PgPool :=
  match pools.find? (fun pl => pl.db_name == dbn && pl.user_name == un) with
  | some pl => (pl, pools)
  | none =>
    ({ db_name := dbn, user_name := un, pool_size := 0 },
      pools ++ [{ db_name := dbn, user_name := un, pool_size := 0 }])

def find_pool (pools : List PgPool) (dbn un : String) : Option PgPool :=
  pools.find? (fun pl => pl.db_name == dbn && pl.user_name == un)

def set_pool_cf (pools : List PgPool) (dbn un : String) (s : Int) : List PgPool :=
  pools.map (fun pl =>
    if pl.db_name = dbn ∧ pl.user_name = un then { pl with pool_size := s } else pl)

/-- The state mutations of `parse_pool` after its parameter loop and
name split succeed (server.h lines 598-619). -/
def pool_commit (st : LoaderState) (un dbn : String) (pp : PoolParams) : LoaderState :=
  let st1 := { st with users := (get_preconfigured_user st.users un).2 }
  let db := (get_preconfigured_database st1 dbn).1
  let st2 := (get_preconfigured_database st1 dbn).2
  { st2 with pools := set_pool_cf (get_pool st2.pools db.name un).2 db.name un pp.pool_size }

/-- `parse_pool` (server.h lines 547-625). -/
def parse_pool (st : LoaderState) (name params : String) : Bool × LoaderState :=
  if params = "" then (false, st)
  else
    match kv_loop pool_apply_pair { pool_size := -1 } params.data with
    | none => (false, st)
    | some pp =>
      match parse_pool_name name.data with
      | none => (false, st)
      | some (un, dbn) => (true, pool_commit st un dbn pp)

/-! ### Auth file parsing -/

/-- Modelled from the spec: the MAX_USERNAME buffer size of bouncer.h
(not part of src/); only its value as a bound matters here. -/
def MAX_USERNAME : Nat := 128

/-- Modelled from the spec: the MAX_PASSWORD buffer size of bouncer.h
(not part of src/); only its value as a bound matters here. -/
def MAX_PASSWORD : Nat := 2048

/-- The write loop of `copy_quoted` (server.h lines 646-655) over raw
memory: `mem` is the byte sequence starting at `src`, `n` the remaining
room `end - dst`.  The result is the list of characters written before
the final terminating NUL.  A doubled double quote is collapsed by
skipping the first quote and copying the character after it; note that
the character copied after a quote is not checked against NUL (on a
source ending in a lone quote the C code copies the terminator and reads
on; running past the modelled memory yields the written prefix). -/
def copy_quoted_go : List Char → Nat → List Char
  | [], _ => []
  | _ :: _, 0 => []
  | [c], n + 1 =>
    if c == nulChar then []
    else if c == dquoteChar then []
    else c :: copy_quoted_go [] n
  | c :: c2 :: rest2, n + 1 =>
    if c == nulChar then []
    else if c == dquoteChar then c2 :: copy_quoted_go rest2 n
    else c :: copy_quoted_go (c2 :: rest2) n

/-- `copy_quoted dst <- src` with buffer length `len`: the characters
written before the terminating NUL, where `src` is a NUL-free string
followed in memory by its terminator and then `mem`. -/
def copy_quoted (src mem : List Char) (len : Nat) : List Char :=
  copy_quoted_go (src ++ nulChar :: mem) (len - 1)

/-- A string in which every double quote has been doubled — the quoting
discipline of the auth file. -/
def doubleQuotes : List Char → List Char
  | [] => []
  | c :: r =>
    if c == dquoteChar then dquoteChar :: dquoteChar :: doubleQuotes r
    else c :: doubleQuotes r

/-- `unquote_add_user` (server.h lines 657-671): both strings are
unquoted into MAX_USERNAME / MAX_PASSWORD sized buffers and handed to
`add_user`.  (The segments fed to it by `load_auth_file` have all
quotes doubled, so the memory following the terminator is never read;
it is modelled as empty.) -/
def unquote_add_user (users : List PgUser) (username password : List Char) : List PgUser :=
  add_user users (String.mk (copy_quoted username [] MAX_USERNAME))
    (String.mk (copy_quoted password [] MAX_PASSWORD))

/-- `find_quote` (server.h lines 632-643): scan to the next double
quote, skipping doubled ones unless `start` is set; the result is the
suffix beginning at the found quote ([] when the string ended first). -/
def find_quote_run (start : Bool) : Nat → List Char → List Char
  | 0, p => p
  | fuel + 1, p =>
    match p.dropWhile (· != dquoteChar) with
    | [] => []
    | [c] => [c]
    | c :: c2 :: rest =>
      if c2 == dquoteChar && !start then find_quote_run start fuel rest
      else c :: c2 :: rest

def find_quote (p : List Char) (start : Bool) : List Char :=
  find_quote_run start (p.length + 1) p

/-- The line scanner of `load_auth_file` (server.h lines 740-794),
collecting the (unquoted username, unquoted password) entries in file
order.  Any malformed line — or an overlong name or password — stops
the scan ("broken auth file"), as the C loop breaks there. -/
def auth_scan_run : Nat → List Char → List (String × String)
  | 0, _ => []
  | fuel + 1, p =>
    match p.dropWhile isspace_c with
    | [] => []
    | c :: rest =>
      if c == semiChar then
        auth_scan_run fuel ((c :: rest).dropWhile (· != nlChar))
      else if c != dquoteChar then []
      else
        match find_quote rest false with
        | [] => []
        | _ :: qt =>
          if MAX_USERNAME ≤ rest.length - (qt.length + 1) then []
          else
            match find_quote qt true with
            | [] => []
            | _ :: q2t =>
              match find_quote q2t false with
              | [] => []
              | _ :: q3t =>
                if MAX_PASSWORD ≤ q2t.length - (q3t.length + 1) then []
                else
                  (String.mk (copy_quoted (rest.take (rest.length - (qt.length + 1))) [] MAX_USERNAME),
                    String.mk (copy_quoted (q2t.take (q2t.length - (q3t.length + 1))) [] MAX_PASSWORD)) ::
                    auth_scan_run fuel (q3t.dropWhile (· != nlChar))

def auth_scan (p : List Char) : List (String × String) :=
  auth_scan_run (p.length + 1) p

/-- `disable_user_cb` (server.h lines 710-714): clear the stored secret
and the auth-file provenance flag. -/
def disable_user_cb (u : PgUser) : PgUser :=
  { u with passwd := "", from_auth_file := false }

/-- `disable_users` (server.h lines 716-719): walk every user. -/
def disable_users (users : List PgUser) : List PgUser :=
  users.map disable_user_cb

/-- One auth-file entry applied to the registry: `unquote_add_user`
followed by `user->from_auth_file = true` (server.h lines 789-790); the
entry already carries the unquoted strings. -/
def applyAuthEntry (users : List PgUser) (e : String × String) : List PgUser :=
  (add_user users e.1 e.2).map
    (fun u => if u.name = e.1 then { u with from_auth_file := true } else u)

/-- `load_auth_file` (server.h lines 722-798).  `file` is the content of
the auth file when it could be read (a NULL name or unreadable file
yields false).  All users are disabled first, then every scanned entry
is (re-)added, from the file, in order; the function reports success
whenever the file was read, even if the scan stopped early. -/
def load_auth_file (st : LoaderState) (file : Option String) : Bool × LoaderState :=
  match file with
  | none => (false, st)
  | some content =>
    (true, { st with
      users := (auth_scan content.data).foldl applyAuthEntry (disable_users st.users) })

/-! ### Registry lemmas -/

theorem find_database_name {dbs : List PgDatabase} {n : String} {db : PgDatabase}
    (h : find_database dbs n = some db) : db.name = n := by
  have := List.find?_some h
  simpa using this

theorem find_database_mem {dbs : List PgDatabase} {n : String} {db : PgDatabase}
    (h : find_database dbs n = some db) : db ∈ dbs :=
  List.mem_of_find?_eq_some h

theorem add_database_name (dbs : List PgDatabase) (n : String) :
    (add_database dbs n).1.name = n := by
  unfold add_database
  rcases hf : find_database dbs n with _ | db
  · simp [freshDatabase]
  · simpa using find_database_name hf

theorem add_database_mem_name (dbs : List PgDatabase) (n : String) :
    ∃ x ∈ (add_database dbs n).2, x.name = n := by
  unfold add_database
  rcases hf : find_database dbs n with _ | db
  · exact ⟨freshDatabase n, by simp, rfl⟩
  · exact ⟨db, by simpa using find_database_mem hf, find_database_name hf⟩

theorem store_database_find {dbs : List PgDatabase} {db : PgDatabase}
    (hmem : ∃ x ∈ dbs, x.name = db.name) :
    find_database (store_database dbs db) db.name = some db := by
  induction dbs with
  | nil => simp at hmem
  | cons d rest ih =>
    by_cases hd : d.name = db.name
    · simp [store_database, find_database, hd, List.find?]
    · have hmem2 : ∃ x ∈ rest, x.name = db.name := by
        rcases hmem with ⟨x, hx, hxn⟩
        rcases List.mem_cons.mp hx with h | h
        · exact absurd (h ▸ hxn) hd
        · exact ⟨x, h, hxn⟩
      have := ih hmem2
      simp only [store_database, find_database, List.map_cons] at this ⊢
      rw [if_neg hd]
      rw [List.find?]
      have hbeq : (d.name == db.name) = false := by
        simpa using hd
      simp [hbeq]
      simpa [find_database, store_database] using this

/-- Net effect of a successful `parse_database` on a regular name. -/
theorem parse_database_success {st : LoaderState} {n c : String} {ps : DbParams}
    (h1 : n ≠ "pgbouncer") (h2 : n ≠ "*")
    (hkv : kv_loop db_apply_pair (initDbParams n) c.data = some ps) :
    parse_database st n c =
      (true,
        { st with
          databases := store_database (add_database st.databases n).2
            (db_update (add_database st.databases n).1 ps)
          users := db_auth_users st.users ps.auth_username }) := by
  simp [parse_database, h1, h2, hkv]

theorem db_update_name (db : PgDatabase) (ps : DbParams) :
    (db_update db ps).name = db.name := rfl

/-- After a successful `parse_database`, looking the name up yields the
updated record. -/
theorem parse_database_success_find (st : LoaderState) {n c : String} {ps : DbParams}
    (h1 : n ≠ "pgbouncer") (h2 : n ≠ "*")
    (hkv : kv_loop db_apply_pair (initDbParams n) c.data = some ps) :
    find_database (parse_database st n c).2.databases n =
      some (db_update (add_database st.databases n).1 ps) := by
  rw [parse_database_success h1 h2 hkv]
  have hname : (db_update (add_database st.databases n).1 ps).name = n := by
    rw [db_update_name, add_database_name]
  have hmem : ∃ x ∈ (add_database st.databases n).2,
      x.name = (db_update (add_database st.databases n).1 ps).name := by
    rw [hname]; exact add_database_mem_name st.databases n
  have := store_database_find hmem
  rw [hname] at this
  simpa using this

/-! ### Which pairs make each loop fail -/

def dbKeys : List String :=
  ["dbname", "host", "port", "user", "password", "auth_user", "client_encoding",
   "datestyle", "timezone", "pool_size", "min_pool_size", "reserve_pool",
   "max_db_connections", "pool_mode", "connect_query", "application_name"]

/-- The pairs on which `parse_database`'s loop fails: an invalid port,
an invalid pool mode, or an unrecognized key. -/
def db_pair_bad (k v : String) : Prop :=
  (k = "port" ∧ atoi v = 0) ∨ (k = "pool_mode" ∧ pool_mode_lookup v = none) ∨ k ∉ dbKeys

instance (k v : String) : Decidable (db_pair_bad k v) := by
  unfold db_pair_bad; infer_instance

/-- The pairs on which `parse_user`'s loop fails. -/
def user_pair_bad (k v : String) : Prop :=
  (k = "pool_mode" ∧ pool_mode_lookup v = none) ∨
  (k = "max_user_connections" ∧ cf_parse_int v = none) ∨
  (k ≠ "pool_mode" ∧ k ≠ "max_user_connections")

instance (k v : String) : Decidable (user_pair_bad k v) := by
  unfold user_pair_bad; infer_instance

/-- The pairs on which `parse_pool`'s loop fails. -/
def pool_pair_bad (k v : String) : Prop :=
  (k = "pool_size" ∧ cf_parse_int v = none) ∨ k ≠ "pool_size"

instance (k v : String) : Decidable (pool_pair_bad k v) := by
  unfold pool_pair_bad; infer_instance

theorem db_apply_k_dbname (ps : DbParams) (v : String) :
    db_apply_pair ps "dbname" v = some { ps with dbname := v } := by
  simp [db_apply_pair]

theorem db_apply_k_host (ps : DbParams) (v : String) :
    db_apply_pair ps "host" v = some { ps with host := some v } := by
  simp [db_apply_pair]

theorem db_apply_k_port (ps : DbParams) (v : String) :
    db_apply_pair ps "port" v =
      (if atoi v = 0 then none else some { ps with port := atoi v }) := by
  simp [db_apply_pair]

theorem db_apply_k_user (ps : DbParams) (v : String) :
    db_apply_pair ps "user" v = some { ps with username := some v } := by
  simp [db_apply_pair]

theorem db_apply_k_password (ps : DbParams) (v : String) :
    db_apply_pair ps "password" v = some { ps with password := v } := by
  simp [db_apply_pair]

theorem db_apply_k_auth_user (ps : DbParams) (v : String) :
    db_apply_pair ps "auth_user" v = some { ps with auth_username := some v } := by
  simp [db_apply_pair]

theorem db_apply_k_client_encoding (ps : DbParams) (v : String) :
    db_apply_pair ps "client_encoding" v = some { ps with client_encoding := some v } := by
  simp [db_apply_pair]

theorem db_apply_k_datestyle (ps : DbParams) (v : String) :
    db_apply_pair ps "datestyle" v = some { ps with datestyle := some v } := by
  simp [db_apply_pair]

theorem db_apply_k_timezone (ps : DbParams) (v : String) :
    db_apply_pair ps "timezone" v = some { ps with timezone := some v } := by
  simp [db_apply_pair]

theorem db_apply_k_pool_size (ps : DbParams) (v : String) :
    db_apply_pair ps "pool_size" v = some { ps with pool_size := atoi v } := by
  simp [db_apply_pair]

theorem db_apply_k_min_pool_size (ps : DbParams) (v : String) :
    db_apply_pair ps "min_pool_size" v = some { ps with min_pool_size := atoi v } := by
  simp [db_apply_pair]

theorem db_apply_k_reserve_pool (ps : DbParams) (v : String) :
    db_apply_pair ps "reserve_pool" v = some { ps with res_pool_size := atoi v } := by
  simp [db_apply_pair]

theorem db_apply_k_max_db_connections (ps : DbParams) (v : String) :
    db_apply_pair ps "max_db_connections" v = some { ps with max_db_connections := atoi v } := by
  simp [db_apply_pair]

theorem db_apply_k_pool_mode (ps : DbParams) (v : String) :
    db_apply_pair ps "pool_mode" v =
      (pool_mode_lookup v).map (fun m => { ps with pool_mode := m }) := by
  simp [db_apply_pair]

theorem db_apply_k_connect_query (ps : DbParams) (v : String) :
    db_apply_pair ps "connect_query" v = some { ps with connect_query := some v } := by
  simp [db_apply_pair]

theorem db_apply_k_application_name (ps : DbParams) (v : String) :
    db_apply_pair ps "application_name" v = some { ps with appname := some v } := by
  simp [db_apply_pair]

theorem db_apply_k_other {k : String} (hk : k ∉ dbKeys) (ps : DbParams) (v : String) :
    db_apply_pair ps k v = none := by
  simp only [dbKeys, List.mem_cons, List.not_mem_nil, or_false, not_or] at hk
  obtain ⟨n1, n2, n3, n4, n5, n6, n7, n8, n9, n10, n11, n12, n13, n14, n15, n16⟩ := hk
  simp [db_apply_pair, n1, n2, n3, n4, n5, n6, n7, n8, n9, n10, n11, n12, n13, n14, n15, n16]

theorem db_apply_pair_none_iff (ps : DbParams) (k v : String) :
    db_apply_pair ps k v = none ↔ db_pair_bad k v := by
  by_cases hk : k ∈ dbKeys
  · have hk2 := hk
    simp only [dbKeys, List.mem_cons, List.not_mem_nil, or_false] at hk2
    rcases hk2 with h | h | h | h | h | h | h | h | h | h | h | h | h | h | h | h <;> subst h
    · rw [db_apply_k_dbname]; simp [db_pair_bad, dbKeys]
    · rw [db_apply_k_host]; simp [db_pair_bad, dbKeys]
    · rw [db_apply_k_port]
      by_cases h0 : atoi v = 0
      · simp [h0, db_pair_bad, dbKeys]
      · simp [h0, db_pair_bad, dbKeys]
    · rw [db_apply_k_user]; simp [db_pair_bad, dbKeys]
    · rw [db_apply_k_password]; simp [db_pair_bad, dbKeys]
    · rw [db_apply_k_auth_user]; simp [db_pair_bad, dbKeys]
    · rw [db_apply_k_client_encoding]; simp [db_pair_bad, dbKeys]
    · rw [db_apply_k_datestyle]; simp [db_pair_bad, dbKeys]
    · rw [db_apply_k_timezone]; simp [db_pair_bad, dbKeys]
    · rw [db_apply_k_pool_size]; simp [db_pair_bad, dbKeys]
    · rw [db_apply_k_min_pool_size]; simp [db_pair_bad, dbKeys]
    · rw [db_apply_k_reserve_pool]; simp [db_pair_bad, dbKeys]
    · rw [db_apply_k_max_db_connections]; simp [db_pair_bad, dbKeys]
    · rw [db_apply_k_pool_mode]
      rcases hpm : pool_mode_lookup v with _ | m
      · simp [hpm, db_pair_bad, dbKeys]
      · simp [hpm, db_pair_bad, dbKeys]
    · rw [db_apply_k_connect_query]; simp [db_pair_bad, dbKeys]
    · rw [db_apply_k_application_name]; simp [db_pair_bad, dbKeys]
  · rw [db_apply_k_other hk]
    simp [db_pair_bad, hk]

theorem user_apply_pair_none_iff (ps : UserParams) (k v : String) :
    user_apply_pair ps k v = none ↔ user_pair_bad k v := by
  unfold user_apply_pair
  split_ifs <;> simp [user_pair_bad, Option.map_eq_none', *]

theorem pool_apply_pair_none_iff (ps : PoolParams) (k v : String) :
    pool_apply_pair ps k v = none ↔ pool_pair_bad k v := by
  unfold pool_apply_pair
  split_ifs <;> simp [pool_pair_bad, Option.map_eq_none', *]

/-- Failure of the key-dispatch fold depends only on the pairs, not on
the accumulated state: it fails exactly when some pair is bad. -/
theorem foldPairs_none_iff {α : Type} (f : α → String → String → Option α)
    (bad : String → String → Prop)
    (hching : ∀ (a : α) (k v : String), f a k v = none ↔ bad k v) :
    ∀ (l : List (String × String)) (a : α),
    foldPairs f a l = none ↔ ∃ pr ∈ l, bad pr.1 pr.2 := by
  intro l
  induction l with
  | nil => intro a; simp [foldPairs]
  | cons pr rest ih =>
    intro a
    rcases pr with ⟨k, v⟩
    rcases hf : f a k v with _ | a2
    · simp only [foldPairs, hf]
      constructor
      · intro _
        exact ⟨(k, v), by simp, (hching a k v).mp hf⟩
      · intro _; trivial
    · simp only [foldPairs, hf]
      rw [ih a2]
      constructor
      · rintro ⟨q, hq, hbad⟩
        exact ⟨q, by simp [hq], hbad⟩
      · rintro ⟨q, hq, hbad⟩
        rcases List.mem_cons.mp hq with h | h
        · subst h
          have : f a k v = none := (hching a k v).mpr hbad
          rw [hf] at this
          cases this
        · exact ⟨q, h, hbad⟩

/-- The last value given for a key in a pair list. -/
def lastVal (key : String) : List (String × String) → Option String
  | [] => none
  | (k, v) :: rest =>
    match lastVal key rest with
    | some w => some w
    | none => if k = key then some v else none

/-- Field tracking through one `parse_database` dispatch step. -/
theorem db_apply_pair_fields {ps ps' : DbParams} {k v : String}
    (h : db_apply_pair ps k v = some ps') :
    ps'.dbname = (if k = "dbname" then v else ps.dbname) ∧
    ps'.port = (if k = "port" then atoi v else ps.port) ∧
    ps'.client_encoding = (if k = "client_encoding" then some v else ps.client_encoding) ∧
    ps'.datestyle = (if k = "datestyle" then some v else ps.datestyle) ∧
    ps'.timezone = (if k = "timezone" then some v else ps.timezone) ∧
    ps'.appname = (if k = "application_name" then some v else ps.appname) := by
  by_cases hk : k ∈ dbKeys
  · have hk2 := hk
    simp only [dbKeys, List.mem_cons, List.not_mem_nil, or_false] at hk2
    rcases hk2 with hke | hke | hke | hke | hke | hke | hke | hke | hke | hke | hke | hke | hke | hke | hke | hke <;> subst hke
    · rw [db_apply_k_dbname] at h; cases h; simp
    · rw [db_apply_k_host] at h; cases h; simp
    · rw [db_apply_k_port] at h
      by_cases h0 : atoi v = 0
      · rw [if_pos h0] at h; exact Option.noConfusion h
      · rw [if_neg h0] at h; cases h; simp
    · rw [db_apply_k_user] at h; cases h; simp
    · rw [db_apply_k_password] at h; cases h; simp
    · rw [db_apply_k_auth_user] at h; cases h; simp
    · rw [db_apply_k_client_encoding] at h; cases h; simp
    · rw [db_apply_k_datestyle] at h; cases h; simp
    · rw [db_apply_k_timezone] at h; cases h; simp
    · rw [db_apply_k_pool_size] at h; cases h; simp
    · rw [db_apply_k_min_pool_size] at h; cases h; simp
    · rw [db_apply_k_reserve_pool] at h; cases h; simp
    · rw [db_apply_k_max_db_connections] at h; cases h; simp
    · rw [db_apply_k_pool_mode] at h
      rw [Option.map_eq_some'] at h
      rcases h with ⟨m, hm, h⟩
      subst h; simp
    · rw [db_apply_k_connect_query] at h; cases h; simp
    · rw [db_apply_k_application_name] at h; cases h; simp
  · rw [db_apply_k_other hk] at h
    exact Option.noConfusion h

/-- Generic field tracking through the `parse_database` fold: a field
updated only by pairs with key `key` ends at the last such value. -/
theorem foldPairs_db_field {β : Type} (key : String) (proj : DbParams → β) (g : String → β)
    (hstep : ∀ (a : DbParams) (k v : String) (a2 : DbParams),
      db_apply_pair a k v = some a2 → proj a2 = if k = key then g v else proj a) :
    ∀ (l : List (String × String)) (a b : DbParams),
      foldPairs db_apply_pair a l = some b →
      proj b = (lastVal key l).elim (proj a) g := by
  intro l
  induction l with
  | nil =>
    intro a b h
    simp only [foldPairs] at h
    cases h
    simp [lastVal]
  | cons pr rest ih =>
    intro a b h
    rcases pr with ⟨k, v⟩
    simp only [foldPairs] at h
    rcases hf : db_apply_pair a k v with _ | a2
    · rw [hf] at h; exact Option.noConfusion h
    · rw [hf] at h
      have hb := ih a2 b h
      have ha2 := hstep a k v a2 hf
      rw [hb, ha2]
      simp only [lastVal]
      rcases lastVal key rest with _ | w
      · by_cases hkk : k = key <;> simp [hkk]
      · simp

theorem foldPairs_db_dbname {l : List (String × String)} {a b : DbParams}
    (h : foldPairs db_apply_pair a l = some b) :
    b.dbname = (lastVal "dbname" l).getD a.dbname := by
  have h2 := foldPairs_db_field "dbname" (fun x => x.dbname) (fun w => w)
    (fun _a _k _v _a2 hf => (db_apply_pair_fields hf).1) l a b h
  rcases hl : lastVal "dbname" l with _ | w
  · rw [hl] at h2; simpa using h2
  · rw [hl] at h2; simpa using h2

theorem foldPairs_db_port {l : List (String × String)} {a b : DbParams}
    (h : foldPairs db_apply_pair a l = some b) :
    b.port = (lastVal "port" l).elim a.port (fun w => atoi w) :=
  foldPairs_db_field "port" (fun x => x.port) (fun w => atoi w)
    (fun _a _k _v _a2 hf => (db_apply_pair_fields hf).2.1) l a b h

theorem foldPairs_db_client_encoding {l : List (String × String)} {a b : DbParams}
    (h : foldPairs db_apply_pair a l = some b) :
    b.client_encoding = (lastVal "client_encoding" l).elim a.client_encoding some :=
  foldPairs_db_field "client_encoding" (fun x => x.client_encoding) some
    (fun _a _k _v _a2 hf => (db_apply_pair_fields hf).2.2.1) l a b h

theorem foldPairs_db_datestyle {l : List (String × String)} {a b : DbParams}
    (h : foldPairs db_apply_pair a l = some b) :
    b.datestyle = (lastVal "datestyle" l).elim a.datestyle some :=
  foldPairs_db_field "datestyle" (fun x => x.datestyle) some
    (fun _a _k _v _a2 hf => (db_apply_pair_fields hf).2.2.2.1) l a b h

theorem foldPairs_db_timezone {l : List (String × String)} {a b : DbParams}
    (h : foldPairs db_apply_pair a l = some b) :
    b.timezone = (lastVal "timezone" l).elim a.timezone some :=
  foldPairs_db_field "timezone" (fun x => x.timezone) some
    (fun _a _k _v _a2 hf => (db_apply_pair_fields hf).2.2.2.2.1) l a b h

theorem foldPairs_db_appname {l : List (String × String)} {a b : DbParams}
    (h : foldPairs db_apply_pair a l = some b) :
    b.appname = (lastVal "application_name" l).elim a.appname some :=
  foldPairs_db_field "application_name" (fun x => x.appname) some
    (fun _a _k _v _a2 hf => (db_apply_pair_fields hf).2.2.2.2.2) l a b h

/-! ### Failure characterization of the three entry points -/

theorem parse_database_false_iff {st : LoaderState} {n c : String}
    (h1 : n ≠ "pgbouncer") (h2 : n ≠ "*") :
    (parse_database st n c).1 = false ↔
      (parsePairs c.data = none ∨
        ∃ l, parsePairs c.data = some l ∧ ∃ pr ∈ l, db_pair_bad pr.1 pr.2) := by
  unfold parse_database
  rw [if_neg h1, if_neg h2, kv_loop_eq_parse]
  rcases hp : parsePairs c.data with _ | l
  · simp
  · rw [Option.some_bind]
    rcases hf : foldPairs db_apply_pair (initDbParams n) l with _ | ps
    · constructor
      · intro _
        exact Or.inr ⟨l, rfl, (foldPairs_none_iff db_apply_pair db_pair_bad
          db_apply_pair_none_iff l (initDbParams n)).mp hf⟩
      · intro _; rfl
    · constructor
      · intro hfalse; exact absurd hfalse (by simp)
      · rintro (hbad | ⟨l2, hl2, hbad⟩)
        · exact absurd hbad (by simp)
        · have hll : l2 = l := (Option.some.inj hl2).symm
          rw [hll] at hbad
          have hcontra : foldPairs db_apply_pair (initDbParams n) l = none :=
            (foldPairs_none_iff db_apply_pair db_pair_bad
              db_apply_pair_none_iff l (initDbParams n)).mpr hbad
          rw [hf] at hcontra
          exact Option.noConfusion hcontra

theorem parse_database_false_unchanged {st : LoaderState} {n c : String}
    (h : (parse_database st n c).1 = false) : (parse_database st n c).2 = st := by
  unfold parse_database at h ⊢
  by_cases h1 : n = "pgbouncer"
  · simp [h1]
  · rw [if_neg h1] at h ⊢
    by_cases h2 : n = "*"
    · rw [if_pos h2] at h; exact absurd h (by simp)
    · rw [if_neg h2] at h ⊢
      rcases hkv : kv_loop db_apply_pair (initDbParams n) c.data with _ | ps
      · simp [hkv]
      · rw [hkv] at h; exact absurd h (by simp)

theorem parse_user_false_iff (st : LoaderState) (n c : String) :
    (parse_user st n c).1 = false ↔
      (c = "" ∨ parsePairs c.data = none ∨
        ∃ l, parsePairs c.data = some l ∧ ∃ pr ∈ l, user_pair_bad pr.1 pr.2) := by
  unfold parse_user
  by_cases hc : c = ""
  · simp [hc]
  · rw [if_neg hc, kv_loop_eq_parse]
    rcases hp : parsePairs c.data with _ | l
    · simp [hc]
    · rw [Option.some_bind]
      rcases hf : foldPairs user_apply_pair initUserParams l with _ | ps
      · constructor
        · intro _
          exact Or.inr (Or.inr ⟨l, rfl, (foldPairs_none_iff user_apply_pair user_pair_bad
            user_apply_pair_none_iff l initUserParams).mp hf⟩)
        · intro _; rfl
      · constructor
        · intro hfalse; exact absurd hfalse (by simp)
        · rintro (hbad | hbad | ⟨l2, hl2, hbad⟩)
          · exact absurd hbad hc
          · exact absurd hbad (by simp)
          · have hll : l2 = l := (Option.some.inj hl2).symm
            rw [hll] at hbad
            have hcontra : foldPairs user_apply_pair initUserParams l = none :=
              (foldPairs_none_iff user_apply_pair user_pair_bad
                user_apply_pair_none_iff l initUserParams).mpr hbad
            rw [hf] at hcontra
            exact Option.noConfusion hcontra

theorem parse_user_false_unchanged {st : LoaderState} {n c : String}
    (h : (parse_user st n c).1 = false) : (parse_user st n c).2 = st := by
  unfold parse_user at h ⊢
  by_cases hc : c = ""
  · simp [hc]
  · rw [if_neg hc] at h ⊢
    rcases hkv : kv_loop user_apply_pair initUserParams c.data with _ | up
    · simp [hkv]
    · rw [hkv] at h; exact absurd h (by simp)

theorem parse_pool_false_iff (st : LoaderState) (n params : String) :
    (parse_pool st n params).1 = false ↔
      (params = "" ∨ parsePairs params.data = none ∨
        (∃ l, parsePairs params.data = some l ∧ ∃ pr ∈ l, pool_pair_bad pr.1 pr.2) ∨
        parse_pool_name n.data = none) := by
  unfold parse_pool
  by_cases hc : params = ""
  · simp [hc]
  · rw [if_neg hc, kv_loop_eq_parse]
    rcases hp : parsePairs params.data with _ | l
    · simp [hc]
    · rw [Option.some_bind]
      rcases hf : foldPairs pool_apply_pair { pool_size := -1 } l with _ | pp
      · constructor
        · intro _
          exact Or.inr (Or.inr (Or.inl ⟨l, rfl, (foldPairs_none_iff pool_apply_pair pool_pair_bad
            pool_apply_pair_none_iff l { pool_size := -1 }).mp hf⟩))
        · intro _; rfl
      · rcases hn : parse_pool_name n.data with _ | und
        · simp [hc, hn]
        · simp only [hn]
          rcases und with ⟨un, dbn⟩
          constructor
          · intro hfalse; exact absurd hfalse (by simp)
          · rintro (hbad | hbad | ⟨l2, hl2, hbad⟩ | hbad)
            · exact absurd hbad hc
            · exact absurd hbad (by simp)
            · have hll : l2 = l := (Option.some.inj hl2).symm
              rw [hll] at hbad
              have hcontra : foldPairs pool_apply_pair { pool_size := -1 } l = none :=
                (foldPairs_none_iff pool_apply_pair pool_pair_bad
                  pool_apply_pair_none_iff l { pool_size := -1 }).mpr hbad
              rw [hf] at hcontra
              exact Option.noConfusion hcontra
            · exact absurd hbad (by simp)

theorem parse_pool_false_unchanged {st : LoaderState} {n params : String}
    (h : (parse_pool st n params).1 = false) : (parse_pool st n params).2 = st := by
  unfold parse_pool at h ⊢
  by_cases hc : params = ""
  · simp [hc]
  · rw [if_neg hc] at h ⊢
    rcases hkv : kv_loop pool_apply_pair { pool_size := -1 } params.data with _ | pp
    · simp [hkv]
    · rcases hn : parse_pool_name n.data with _ | und
      · simp [hn]
      · rcases und with ⟨un, dbn⟩
        rw [hkv, hn] at h
        exact absurd h (by simp)

theorem parse_database_true_kv {st : LoaderState} {n c : String} {st' : LoaderState}
    (h1 : n ≠ "pgbouncer") (h2 : n ≠ "*")
    (h : parse_database st n c = (true, st')) :
    ∃ ps, kv_loop db_apply_pair (initDbParams n) c.data = some ps := by
  unfold parse_database at h
  rw [if_neg h1, if_neg h2] at h
  rcases hkv : kv_loop db_apply_pair (initDbParams n) c.data with _ | ps
  · rw [hkv] at h; exact absurd h (by simp)
  · exact ⟨ps, rfl⟩

theorem lastVal_eq_none_iff (key : String) (l : List (String × String)) :
    lastVal key l = none ↔ ∀ pr ∈ l, pr.1 ≠ key := by
  induction l with
  | nil => simp [lastVal]
  | cons pr rest ih =>
    rcases pr with ⟨k, v⟩
    simp only [lastVal]
    rcases hrest : lastVal key rest with _ | w
    · rw [hrest] at ih
      by_cases hk : k = key
      · simp [hk]
      · constructor
        · intro _ pr hpr
          rcases List.mem_cons.mp hpr with h | h
          · subst h; exact hk
          · exact ih.mp rfl pr h
        · intro _; rw [if_neg hk]
    · rw [hrest] at ih
      constructor
      · intro habs; exact Option.noConfusion habs
      · intro hall
        exact Option.noConfusion
          (ih.mpr (fun pr hpr => hall pr (List.mem_cons_of_mem _ hpr)))

/-- The empty initial loader state, used for concrete runs. -/
def st0 : LoaderState :=
  { users := [], databases := [], pools := [], autodb_connstr := none, autodb_dirty := false }

/-! ### Claims -/

/-- Claim C4 (confirmed): for the reserved database name "pgbouncer",
`parse_database` returns false and creates or modifies no record,
whatever the connection string and prior state. -/
theorem claim_C4 (st : LoaderState) (connstr : String) :
    parse_database st "pgbouncer" connstr = (false, st) := by
  simp [parse_database]

/-- Claim C8 (confirmed): `parse_pool_name` succeeds exactly when the
name neither begins nor ends with a dot and strtok-splitting on the dot
yields exactly two tokens; since strtok collapses adjacent delimiters,
"a..b" is accepted as user "a" and database "b". -/
theorem claim_C8 :
    (∀ p : List Char, (parse_pool_name p).isSome ↔
      (p.head? ≠ some dotChar ∧ p.getLast? ≠ some dotChar ∧
        (strtok_split dotChar p).length = 2)) ∧
    parse_pool_name "a..b".data = some ("a", "b") := by
  refine ⟨fun p => ?_, by decide⟩
  unfold parse_pool_name
  by_cases hcond : (p.head? == some dotChar || p.getLast? == some dotChar) = true
  · rw [if_pos hcond]
    simp only [Option.isSome_none, Bool.false_eq_true, false_iff]
    rintro ⟨hh, hl, _⟩
    have hcond2 : p.head? = some dotChar ∨ p.getLast? = some dotChar := by
      simpa using hcond
    rcases hcond2 with h | h
    · exact hh h
    · exact hl h
  · rw [if_neg hcond]
    have hne : p.head? ≠ some dotChar ∧ p.getLast? ≠ some dotChar := by
      have hcond2 : ¬(p.head? = some dotChar ∨ p.getLast? = some dotChar) := by
        simpa using hcond
      push_neg at hcond2
      exact hcond2
    rcases hts : strtok_split dotChar p with _ | ⟨u, rest⟩
    · simp [hne.1, hne.2]
    · rcases rest with _ | ⟨d, rest2⟩
      · simp [hne.1, hne.2]
      · rcases rest2 with _ | ⟨x, rest3⟩
        · simp [hne.1, hne.2]
        · simp [hne.1, hne.2]

/-- Claim C1 (corrected): each entry point leaves the whole loader state
unchanged whenever it returns false, and returns false exactly on the
malformed updates it actually checks: `parse_database` on a syntax
error, an invalid port, an invalid pool mode or an unrecognized key (for
a regular name); `parse_user` additionally on empty parameters and an
invalid integer, `parse_pool` on empty parameters, an invalid integer,
an unrecognized key or a malformed pool name.  (`parse_database`
accepts empty parameters and accepts unparsable integer values for the
atoi-converted size keys — see the counterexample.) -/
theorem claim_C1 :
    (∀ (st : LoaderState) (n c : String),
      (parse_database st n c).1 = false → (parse_database st n c).2 = st) ∧
    (∀ (st : LoaderState) (n c : String),
      (parse_user st n c).1 = false → (parse_user st n c).2 = st) ∧
    (∀ (st : LoaderState) (n params : String),
      (parse_pool st n params).1 = false → (parse_pool st n params).2 = st) ∧
    (∀ (st : LoaderState) (n c : String), n ≠ "pgbouncer" → n ≠ "*" →
      ((parse_database st n c).1 = false ↔
        (parsePairs c.data = none ∨
          ∃ l, parsePairs c.data = some l ∧ ∃ pr ∈ l, db_pair_bad pr.1 pr.2))) ∧
    (∀ (st : LoaderState) (n c : String),
      ((parse_user st n c).1 = false ↔
        (c = "" ∨ parsePairs c.data = none ∨
          ∃ l, parsePairs c.data = some l ∧ ∃ pr ∈ l, user_pair_bad pr.1 pr.2))) ∧
    (∀ (st : LoaderState) (n params : String),
      ((parse_pool st n params).1 = false ↔
        (params = "" ∨ parsePairs params.data = none ∨
          (∃ l, parsePairs params.data = some l ∧ ∃ pr ∈ l, pool_pair_bad pr.1 pr.2) ∨
          parse_pool_name n.data = none))) :=
  ⟨fun _ _ _ => parse_database_false_unchanged,
   fun _ _ _ => parse_user_false_unchanged,
   fun _ _ _ => parse_pool_false_unchanged,
   fun _ _ _ => parse_database_false_iff,
   fun st n c => parse_user_false_iff st n c,
   fun st n params => parse_pool_false_iff st n params⟩

/-- Claim C1 counterexample: "empty parameters" and "an invalid integer
value" are listed among the malformed updates every entry point must
reject, but `parse_database` returns true on an empty connection string
and on `pool_size=abc` (atoi yields 0, which is stored), creating the
database record. -/
theorem claim_C1_cex :
    (parse_database st0 "db1" "").1 = true ∧
    (parse_database st0 "db1" "pool_size=abc").1 = true ∧
    (parse_database st0 "db1" "pool_size=abc").2 ≠ st0 := by
  refine ⟨by decide, by decide, by decide⟩

/-- Claim C1 witness: concrete failing inputs with unchanged state. -/
theorem claim_C1_witness :
    (parse_database st0 "db1" "=bogus").2 = st0 ∧
    (parse_user st0 "u1" "").2 = st0 ∧
    (parse_pool st0 "u1.d1" "pool_size=x").2 = st0 ∧
    (parse_database st0 "db1" "port=0").1 = false := by
  refine ⟨claim_C1.1 st0 "db1" "=bogus" (by decide),
    claim_C1.2.1 st0 "u1" "" (by decide),
    claim_C1.2.2.1 st0 "u1.d1" "pool_size=x" (by decide),
    (claim_C1.2.2.2.1 st0 "db1" "port=0" (by decide) (by decide)).mpr ?_⟩
  exact Or.inr ⟨[("port", "0")], by decide, ("port", "0"), by decide, by decide⟩

/-- Claim C10 (confirmed): the port defaults to 5432 when no port key is
present, a supplied port value fails the call exactly when `atoi` yields
0, and therefore non-numeric ports are rejected while negative or
over-65535 numeric ports are accepted and stored verbatim. -/
theorem claim_C10 :
    (∀ (st : LoaderState) (n c : String) (st' : LoaderState) (l : List (String × String)),
      n ≠ "pgbouncer" → n ≠ "*" →
      parse_database st n c = (true, st') →
      parsePairs c.data = some l →
      (∀ pr ∈ l, pr.1 ≠ "port") →
      ∃ df, find_database st'.databases n = some df ∧ df.port = 5432) ∧
    (∀ (ps : DbParams) (v : String), atoi v = 0 → db_apply_pair ps "port" v = none) ∧
    (∀ (ps : DbParams) (v : String), atoi v ≠ 0 →
      db_apply_pair ps "port" v = some { ps with port := atoi v }) ∧
    (∀ (st : LoaderState) (n c : String) (st' : LoaderState)
        (l : List (String × String)) (w : String),
      n ≠ "pgbouncer" → n ≠ "*" →
      parse_database st n c = (true, st') →
      parsePairs c.data = some l →
      lastVal "port" l = some w →
      ∃ df, find_database st'.databases n = some df ∧ df.port = atoi w) ∧
    (parse_database st0 "d1" "port=abc").1 = false ∧
    ((parse_database st0 "d1" "port=-5").1 = true ∧
      ∃ df, find_database (parse_database st0 "d1" "port=-5").2.databases "d1" = some df ∧
        df.port = -5) ∧
    ((parse_database st0 "d1" "port=70000").1 = true ∧
      ∃ df, find_database (parse_database st0 "d1" "port=70000").2.databases "d1" = some df ∧
        df.port = 70000) := by
  refine ⟨?_, ?_, ?_, ?_, by decide, ⟨by decide, by decide⟩, ⟨by decide, by decide⟩⟩
  · intro st n c st' l h1 h2 hpd hp hnone
    obtain ⟨ps, hkv⟩ := parse_database_true_kv h1 h2 hpd
    have hfind := parse_database_success_find st h1 h2 hkv
    rw [hpd] at hfind
    refine ⟨db_update (add_database st.databases n).1 ps, hfind, ?_⟩
    rw [kv_loop_eq_parse, hp, Option.some_bind] at hkv
    have hport := foldPairs_db_port hkv
    rw [(lastVal_eq_none_iff "port" l).mpr hnone] at hport
    simpa [db_update, initDbParams] using hport
  · intro ps v h0
    rw [db_apply_k_port, if_pos h0]
  · intro ps v h0
    rw [db_apply_k_port, if_neg h0]
  · intro st n c st' l w h1 h2 hpd hp hlast
    obtain ⟨ps, hkv⟩ := parse_database_true_kv h1 h2 hpd
    have hfind := parse_database_success_find st h1 h2 hkv
    rw [hpd] at hfind
    refine ⟨db_update (add_database st.databases n).1 ps, hfind, ?_⟩
    rw [kv_loop_eq_parse, hp, Option.some_bind] at hkv
    have hport := foldPairs_db_port hkv
    rw [hlast] at hport
    simpa [db_update] using hport

/-- Claim C10 witness: the general parts applied at concrete inputs. -/
theorem claim_C10_witness :
    (∃ df, find_database (parse_database st0 "d1" "host=h").2.databases "d1" = some df ∧
      df.port = 5432) ∧
    db_apply_pair (initDbParams "d1") "port" "abc" = none ∧
    db_apply_pair (initDbParams "d1") "port" "70000" =
      some { initDbParams "d1" with port := atoi "70000" } ∧
    (∃ df, find_database (parse_database st0 "d1" "port=-5").2.databases "d1" = some df ∧
      df.port = atoi "-5") := by
  refine ⟨claim_C10.1 st0 "d1" "host=h" (parse_database st0 "d1" "host=h").2
      [("host", "h")] (by decide) (by decide) (by decide) (by decide) (by decide),
    claim_C10.2.1 (initDbParams "d1") "abc" (by decide),
    claim_C10.2.2.1 (initDbParams "d1") "70000" (by decide),
    claim_C10.2.2.2.1 st0 "d1" "port=-5" (parse_database st0 "d1" "port=-5").2
      [("port", "-5")] "-5" (by decide) (by decide) (by decide) (by decide) (by decide)⟩

theorem elim_none_some (o : Option String) :
    o.elim (none : Option String) some = o := by
  rcases o <;> rfl

/-- Claim C5 (confirmed): after a successful `parse_database` on a
regular name, the target's startup parameters are exactly "database"
with the effective dbname (last dbname value, else the target name)
followed by client_encoding, datestyle, timezone and application_name
for exactly the keys present in the connection string, in that order;
the previous contents do not appear (the result depends only on the
name and the parsed pairs). -/
theorem claim_C5 :
    ∀ (st : LoaderState) (n c : String) (st' : LoaderState) (l : List (String × String)),
    n ≠ "pgbouncer" → n ≠ "*" →
    parse_database st n c = (true, st') →
    parsePairs c.data = some l →
    ∃ df, find_database st'.databases n = some df ∧
      df.startup_params = some
        (["database", (lastVal "dbname" l).getD n] ++
          optParam "client_encoding" (lastVal "client_encoding" l) ++
          optParam "datestyle" (lastVal "datestyle" l) ++
          optParam "timezone" (lastVal "timezone" l) ++
          optParam "application_name" (lastVal "application_name" l)) := by
  intro st n c st' l h1 h2 hpd hp
  obtain ⟨ps, hkv⟩ := parse_database_true_kv h1 h2 hpd
  have hfind := parse_database_success_find st h1 h2 hkv
  rw [hpd] at hfind
  refine ⟨db_update (add_database st.databases n).1 ps, hfind, ?_⟩
  rw [kv_loop_eq_parse, hp, Option.some_bind] at hkv
  have hdb : ps.dbname = (lastVal "dbname" l).getD n := by
    simpa [initDbParams] using foldPairs_db_dbname hkv
  have hce : ps.client_encoding = lastVal "client_encoding" l := by
    have h0 := foldPairs_db_client_encoding hkv
    rw [show (initDbParams n).client_encoding = none from rfl, elim_none_some] at h0
    exact h0
  have hds : ps.datestyle = lastVal "datestyle" l := by
    have h0 := foldPairs_db_datestyle hkv
    rw [show (initDbParams n).datestyle = none from rfl, elim_none_some] at h0
    exact h0
  have htz : ps.timezone = lastVal "timezone" l := by
    have h0 := foldPairs_db_timezone hkv
    rw [show (initDbParams n).timezone = none from rfl, elim_none_some] at h0
    exact h0
  have happ : ps.appname = lastVal "application_name" l := by
    have h0 := foldPairs_db_appname hkv
    rw [show (initDbParams n).appname = none from rfl, elim_none_some] at h0
    exact h0
  have hsp : (db_update (add_database st.databases n).1 ps).startup_params =
      some (startup_list ps) := rfl
  rw [hsp, startup_list, hdb, hce, hds, htz, happ]

/-- Claim C5 witness: a concrete successful call. -/
theorem claim_C5_witness :
    ∃ df, find_database
        (parse_database st0 "d1" "dbname=real client_encoding=utf8 application_name=app").2.databases
        "d1" = some df ∧
      df.startup_params = some
        (["database", (lastVal "dbname"
            [("dbname", "real"), ("client_encoding", "utf8"), ("application_name", "app")]).getD "d1"] ++
          optParam "client_encoding" (lastVal "client_encoding"
            [("dbname", "real"), ("client_encoding", "utf8"), ("application_name", "app")]) ++
          optParam "datestyle" (lastVal "datestyle"
            [("dbname", "real"), ("client_encoding", "utf8"), ("application_name", "app")]) ++
          optParam "timezone" (lastVal "timezone"
            [("dbname", "real"), ("client_encoding", "utf8"), ("application_name", "app")]) ++
          optParam "application_name" (lastVal "application_name"
            [("dbname", "real"), ("client_encoding", "utf8"), ("application_name", "app")])) :=
  claim_C5 st0 "d1" "dbname=real client_encoding=utf8 application_name=app"
    (parse_database st0 "d1" "dbname=real client_encoding=utf8 application_name=app").2
    [("dbname", "real"), ("client_encoding", "utf8"), ("application_name", "app")]
    (by decide) (by decide) (by decide) (by decide)

/-- Claim C2 (corrected): reloading an already-configured target tags it
dirty exactly when one of dbname, host, port, the forced user name, or
connect_query differs from the previous record (an already-set dirty
flag persists); differences in any other configured value — pool sizes,
pool mode, max connections, auth_user, password, startup parameters —
do not tag the target dirty. -/
theorem claim_C2 :
    ∀ (st : LoaderState) (n c : String) (ps : DbParams) (db : PgDatabase),
    n ≠ "pgbouncer" → n ≠ "*" →
    kv_loop db_apply_pair (initDbParams n) c.data = some ps →
    find_database st.databases n = some db →
    db.dbname.isSome = true →
    (parse_database st n c).1 = true ∧
    ∃ df, find_database (parse_database st n c).2.databases n = some df ∧
      df.dirty = (db.dirty || db_changed db ps) ∧
      db_changed db ps =
        (decide (db.dbname ≠ some ps.dbname) || decide (ps.host ≠ db.host) ||
          decide (ps.port ≠ db.port) ||
          decide (ps.username ≠ db.forced_user.map Prod.fst) ||
          decide (ps.connect_query ≠ db.connect_query)) := by
  intro st n c ps db h1 h2 hkv hdb hconf
  have hadd : add_database st.databases n = (db, st.databases) := by
    unfold add_database
    rw [hdb]
  constructor
  · rw [parse_database_success h1 h2 hkv]
  · have hfind := parse_database_success_find st h1 h2 hkv
    refine ⟨db_update (add_database st.databases n).1 ps, hfind, ?_, rfl⟩
    rw [hadd]
    show (db.dirty || (db.dbname.isSome && db_changed db ps)) = (db.dirty || db_changed db ps)
    rw [hconf, Bool.true_and]

/-- Claim C2 intermediate states for the counterexample: a target loaded
with pool_size=4 and reloaded with only pool_size changed to 5. -/
def c2_st1 : LoaderState := (parse_database st0 "d1" "host=h pool_size=4").2

def c2_st2 : LoaderState := (parse_database c2_st1 "d1" "host=h pool_size=5").2

/-- Claim C2 counterexample: the reload succeeds and changes the stored
pool_size (a configured value, part of the loaded record), yet the
target is not tagged dirty. -/
theorem claim_C2_cex :
    (parse_database c2_st1 "d1" "host=h pool_size=5").1 = true ∧
    (find_database c2_st1.databases "d1").map (fun d => d.pool_size) = some 4 ∧
    (find_database c2_st2.databases "d1").map (fun d => d.pool_size) = some 5 ∧
    (find_database c2_st2.databases "d1").map (fun d => d.dirty) = some false := by
  refine ⟨by decide, by decide, by decide, by decide⟩

/-- Claim C2 witness: reloading with a changed host does tag dirty. -/
theorem claim_C2_witness :
    (parse_database c2_st1 "d1" "host=h2 pool_size=4").1 = true ∧
    ∃ df, find_database (parse_database c2_st1 "d1" "host=h2 pool_size=4").2.databases "d1" =
        some df ∧
      df.dirty = (false || db_changed
        { name := "d1", dbname := some "d1", host := some "h", port := 5432,
          forced_user := none, pool_size := 4, min_pool_size := -1, res_pool_size := -1,
          max_db_connections := -1, pool_mode := PoolMode.inherit, connect_query := none,
          startup_params := some ["database", "d1"], auth_user := none, db_dead := false,
          db_auto := false, inactive_time := 0, dirty := false }
        { initDbParams "d1" with host := some "h2", pool_size := 4 }) ∧
      db_changed
        { name := "d1", dbname := some "d1", host := some "h", port := 5432,
          forced_user := none, pool_size := 4, min_pool_size := -1, res_pool_size := -1,
          max_db_connections := -1, pool_mode := PoolMode.inherit, connect_query := none,
          startup_params := some ["database", "d1"], auth_user := none, db_dead := false,
          db_auto := false, inactive_time := 0, dirty := false }
        { initDbParams "d1" with host := some "h2", pool_size := 4 } =
        (decide ((some "d1" : Option String) ≠ some "d1") || decide ((some "h2" : Option String) ≠ some "h") ||
          decide ((5432 : Int) ≠ 5432) || decide ((none : Option String) ≠ none) ||
          decide ((none : Option String) ≠ none)) := by
  have h := claim_C2 c2_st1 "d1" "host=h2 pool_size=4"
    { initDbParams "d1" with host := some "h2", pool_size := 4 }
    { name := "d1", dbname := some "d1", host := some "h", port := 5432,
      forced_user := none, pool_size := 4, min_pool_size := -1, res_pool_size := -1,
      max_db_connections := -1, pool_mode := PoolMode.inherit, connect_query := none,
      startup_params := some ["database", "d1"], auth_user := none, db_dead := false,
      db_auto := false, inactive_time := 0, dirty := false }
    (by decide) (by decide) (by decide) (by decide) (by decide)
  obtain ⟨df, hfind, hdirty, hch⟩ := h.2
  exact ⟨h.1, df, hfind, by simpa using hdirty, by decide⟩

/-! ### User registry lemmas -/

theorem find_user_name {users : List PgUser} {n : String} {u : PgUser}
    (h : find_user users n = some u) : u.name = n := by
  have := List.find?_some h
  simpa using this

theorem find_user_mem {users : List PgUser} {n : String} {u : PgUser}
    (h : find_user users n = some u) : u ∈ users :=
  List.mem_of_find?_eq_some h

theorem find_user_none {users : List PgUser} {n : String}
    (h : find_user users n = none) : ∀ u ∈ users, u.name ≠ n := by
  intro u hu
  have := List.find?_eq_none.mp h u hu
  simpa using this

theorem add_user_absent {users : List PgUser} {n : String} (p : String)
    (h : find_user users n = none) : add_user users n p = users ++ [freshUser n p] := by
  simp [add_user, h]

theorem map_names_map (users : List PgUser) (f : PgUser → PgUser)
    (hf : ∀ u, (f u).name = u.name) :
    (users.map f).map (fun u => u.name) = users.map (fun u => u.name) := by
  induction users with
  | nil => rfl
  | cons u rest ih => simp [hf u, ih]

theorem set_user_cf_names (users : List PgUser) (n : String) (up : UserParams) :
    (set_user_cf users n up).map (fun u => u.name) = users.map (fun u => u.name) := by
  unfold set_user_cf
  apply map_names_map
  intro u
  by_cases hu : u.name = n <;> simp [hu]

theorem add_user_names_found {users : List PgUser} {n : String} (p : String)
    (h : (find_user users n).isSome) :
    (add_user users n p).map (fun u => u.name) = users.map (fun u => u.name) := by
  unfold add_user
  rw [if_pos h]
  apply map_names_map
  intro u
  by_cases hu : u.name = n <;> simp [hu]

theorem get_preconfigured_user_nodup {users : List PgUser} {n : String}
    (h : (users.map (fun u => u.name)).Nodup) :
    ((get_preconfigured_user users n).2.map (fun u => u.name)).Nodup := by
  unfold get_preconfigured_user
  rcases hf : find_user users n with _ | u
  · rw [add_user_absent "" hf]
    simp only [List.map_append, List.map_cons, List.map_nil]
    rw [List.nodup_append]
    refine ⟨h, by simp [freshUser], ?_⟩
    intro x hx
    simp only [List.mem_singleton, freshUser]
    obtain ⟨w, hw, hwx⟩ := List.mem_map.mp hx
    intro hxn
    exact find_user_none hf w hw (by rw [hwx, hxn])
  · exact h

theorem get_preconfigured_user_mem (users : List PgUser) (n : String) :
    ∃ u ∈ (get_preconfigured_user users n).2, u.name = n := by
  unfold get_preconfigured_user
  rcases hf : find_user users n with _ | u
  · rw [add_user_absent "" hf]
    exact ⟨freshUser n "", by simp, rfl⟩
  · exact ⟨u, find_user_mem hf, find_user_name hf⟩

theorem set_user_cf_mem_name {users : List PgUser} {n : String} (up : UserParams)
    (h : ∃ u ∈ users, u.name = n) : ∃ u ∈ set_user_cf users n up, u.name = n := by
  obtain ⟨u, hm, hn⟩ := h
  unfold set_user_cf
  refine ⟨(fun u => if u.name = n then
      { u with pool_mode := up.pool_mode, max_user_connections := up.max_user_connections }
    else u) u, List.mem_map_of_mem _ hm, ?_⟩
  simp [hn]

theorem parse_user_names_nodup {st : LoaderState} {n c : String}
    (h : (st.users.map (fun u => u.name)).Nodup) :
    ((parse_user st n c).2.users.map (fun u => u.name)).Nodup := by
  unfold parse_user
  by_cases hc : c = ""
  · simpa [hc] using h
  · rw [if_neg hc]
    rcases hkv : kv_loop user_apply_pair initUserParams c.data with _ | up
    · simpa using h
    · show ((set_user_cf (get_preconfigured_user st.users n).2 n up).map
        (fun u => u.name)).Nodup
      rw [set_user_cf_names]
      exact get_preconfigured_user_nodup h

theorem parse_user_true_mem {st : LoaderState} {n c : String}
    (h : (parse_user st n c).1 = true) :
    ∃ u ∈ (parse_user st n c).2.users, u.name = n := by
  unfold parse_user at h ⊢
  by_cases hc : c = ""
  · rw [if_pos hc] at h; exact absurd h (by simp)
  · rw [if_neg hc] at h ⊢
    rcases hkv : kv_loop user_apply_pair initUserParams c.data with _ | up
    · rw [hkv] at h; exact absurd h (by simp)
    · show ∃ u ∈ set_user_cf (get_preconfigured_user st.users n).2 n up, u.name = n
      exact set_user_cf_mem_name up (get_preconfigured_user_mem st.users n)

theorem filter_name_length_one {users : List PgUser} {n : String}
    (hnd : (users.map (fun u => u.name)).Nodup) (hmem : ∃ u ∈ users, u.name = n) :
    (users.filter (fun u => u.name == n)).length = 1 := by
  induction users with
  | nil => simp at hmem
  | cons u rest ih =>
    simp only [List.map_cons, List.nodup_cons] at hnd
    by_cases hu : u.name = n
    · have hrest : rest.filter (fun u => u.name == n) = [] := by
        rw [List.filter_eq_nil_iff]
        intro x hx hb
        have hxmem : x.name ∈ rest.map (fun u => u.name) := List.mem_map_of_mem _ hx
        have hxn : x.name = n := by simpa using hb
        rw [hxn, ← hu] at hxmem
        exact hnd.1 hxmem
      rw [List.filter_cons_of_pos (by simpa using hu), hrest]
      rfl
    · have hmem2 : ∃ x ∈ rest, x.name = n := by
        obtain ⟨x, hx, hxn⟩ := hmem
        rcases List.mem_cons.mp hx with h | h
        · exact absurd (h ▸ hxn) hu
        · exact ⟨x, h, hxn⟩
      rw [List.filter_cons_of_neg (by simpa using hu)]
      exact ih hnd.2 hmem2

/-- Claim C6 (confirmed): `get_preconfigured_user` returns the existing
registry entry when one of that name exists and creates a new entry with
an empty secret only when none does; hence two `parse_user` calls on
the same name keep a single record of that name, and `parse_user`
preserves name-uniqueness of the registry. -/
theorem claim_C6 :
    (∀ (users : List PgUser) (n : String) (u : PgUser),
      find_user users n = some u → get_preconfigured_user users n = (u, users)) ∧
    (∀ (users : List PgUser) (n : String),
      find_user users n = none →
      get_preconfigured_user users n = (freshUser n "", users ++ [freshUser n ""])) ∧
    (∀ (st : LoaderState) (n c : String),
      (st.users.map (fun u => u.name)).Nodup →
      ((parse_user st n c).2.users.map (fun u => u.name)).Nodup) ∧
    (∀ (st : LoaderState) (n c1 c2 : String),
      (st.users.map (fun u => u.name)).Nodup →
      (parse_user (parse_user st n c1).2 n c2).1 = true →
      ((parse_user (parse_user st n c1).2 n c2).2.users.filter
        (fun u => u.name == n)).length = 1) := by
  refine ⟨?_, ?_, ?_, ?_⟩
  · intro users n u h
    unfold get_preconfigured_user
    rw [h]
  · intro users n h
    unfold get_preconfigured_user
    rw [h, add_user_absent "" h]
  · intro st n c h
    exact parse_user_names_nodup h
  · intro st n c1 c2 h htrue
    exact filter_name_length_one (parse_user_names_nodup (parse_user_names_nodup h))
      (parse_user_true_mem htrue)

/-- Claim C6 witness: the general parts at concrete inputs. -/
theorem claim_C6_witness :
    get_preconfigured_user [freshUser "u1" "p"] "u1" =
      (freshUser "u1" "p", [freshUser "u1" "p"]) ∧
    get_preconfigured_user [] "u1" = (freshUser "u1" "", [freshUser "u1" ""]) ∧
    ((parse_user (parse_user st0 "u1" "pool_mode=session").2 "u1"
      "max_user_connections=3").2.users.filter (fun u => u.name == "u1")).length = 1 := by
  refine ⟨claim_C6.1 [freshUser "u1" "p"] "u1" (freshUser "u1" "p") (by decide),
    claim_C6.2.1 [] "u1" (by decide),
    claim_C6.2.2.2 st0 "u1" "pool_mode=session" "max_user_connections=3"
      (by decide) (by decide)⟩

/-! ### Pool lemmas -/

theorem parse_pool_true_shape {st : LoaderState} {n params : String} {st' : LoaderState}
    (h : parse_pool st n params = (true, st')) :
    ∃ pp un dbn, kv_loop pool_apply_pair { pool_size := -1 } params.data = some pp ∧
      parse_pool_name n.data = some (un, dbn) ∧ st' = pool_commit st un dbn pp := by
  unfold parse_pool at h
  by_cases hc : params = ""
  · rw [if_pos hc] at h; exact absurd h (by simp)
  · rw [if_neg hc] at h
    rcases hkv : kv_loop pool_apply_pair { pool_size := -1 } params.data with _ | pp
    · rw [hkv] at h; exact absurd h (by simp)
    · rw [hkv] at h
      rcases hn : parse_pool_name n.data with _ | und
      · rw [hn] at h; exact absurd h (by simp)
      · rcases und with ⟨un, dbn⟩
        rw [hn] at h
        refine ⟨pp, un, dbn, rfl, rfl, ?_⟩
        have := (Prod.mk.injEq _ _ _ _).mp h
        exact this.2.symm

theorem foldPairs_pool_size :
    ∀ (l : List (String × String)) (a b : PoolParams),
    foldPairs pool_apply_pair a l = some b →
    (l = [] → b = a) ∧
    (∀ pr : String × String, l.getLast? = some pr → cf_parse_int pr.2 = some b.pool_size) := by
  intro l
  induction l with
  | nil =>
    intro a b h
    simp only [foldPairs] at h
    cases h
    exact ⟨fun _ => rfl, by simp⟩
  | cons pr rest ih =>
    intro a b h
    rcases pr with ⟨k, v⟩
    simp only [foldPairs] at h
    rcases hf : pool_apply_pair a k v with _ | a2
    · rw [hf] at h; exact Option.noConfusion h
    · rw [hf] at h
      refine ⟨fun hnil => absurd hnil (by simp), ?_⟩
      intro pr2 hlast
      rcases hrest : rest with _ | ⟨q, rest2⟩
      · subst hrest
        simp only [foldPairs] at h
        cases h
        simp only [List.getLast?_singleton, Option.some.injEq] at hlast
        subst hlast
        unfold pool_apply_pair at hf
        by_cases hks : k = "pool_size"
        · rw [if_pos hks] at hf
          rcases hpi : cf_parse_int v with _ | m
          · rw [hpi] at hf; exact Option.noConfusion hf
          · rw [hpi] at hf
            simp only [Option.map_some', Option.some.injEq] at hf
            rw [← hf]
        · rw [if_neg hks] at hf; exact Option.noConfusion hf
      · subst hrest
        have hih := (ih a2 b h).2
        have : (q :: rest2).getLast? = some pr2 := by
          rw [← hlast]
          exact (List.getLast?_cons_cons ..).symm
        exact hih pr2 this

theorem foldPairs_pool_all_keys {l : List (String × String)} {a b : PoolParams}
    (h : foldPairs pool_apply_pair a l = some b) :
    ∀ pr ∈ l, pr.1 = "pool_size" := by
  intro pr hpr
  by_contra hne
  have hbad : ∃ pr2 ∈ l, pool_pair_bad pr2.1 pr2.2 := ⟨pr, hpr, Or.inr hne⟩
  have := (foldPairs_none_iff pool_apply_pair pool_pair_bad
    pool_apply_pair_none_iff l a).mpr hbad
  rw [h] at this
  exact Option.noConfusion this

theorem find_pool_set {pools : List PgPool} {dbn un : String} {s : Int}
    (hmem : ∃ pl ∈ pools, pl.db_name = dbn ∧ pl.user_name = un) :
    find_pool (set_pool_cf pools dbn un s) dbn un =
      some { db_name := dbn, user_name := un, pool_size := s } := by
  induction pools with
  | nil => simp at hmem
  | cons pl rest ih =>
    by_cases hp : pl.db_name = dbn ∧ pl.user_name = un
    · have : ({ pl with pool_size := s } : PgPool) =
          { db_name := dbn, user_name := un, pool_size := s } := by
        rw [← hp.1, ← hp.2]
      simp [set_pool_cf, find_pool, hp, List.find?, this, hp.1, hp.2]
    · have hmem2 : ∃ x ∈ rest, x.db_name = dbn ∧ x.user_name = un := by
        rcases hmem with ⟨x, hx, hxn⟩
        rcases List.mem_cons.mp hx with h | h
        · exact absurd (h ▸ hxn) hp
        · exact ⟨x, h, hxn⟩
      have hpred : (pl.db_name == dbn && pl.user_name == un) = false := by
        rcases Decidable.not_and_iff_or_not.mp hp with h | h <;> simp [h]
      simp only [set_pool_cf, List.map_cons, if_neg hp]
      unfold find_pool
      rw [List.find?]
      rw [hpred]
      have := ih hmem2
      simpa [find_pool, set_pool_cf] using this

theorem get_pool_mem (pools : List PgPool) (dbn un : String) :
    ∃ pl ∈ (get_pool pools dbn un).2, pl.db_name = dbn ∧ pl.user_name = un := by
  rcases hf : pools.find? (fun pl => pl.db_name == dbn && pl.user_name == un) with _ | pl
  · have h2 : (get_pool pools dbn un).2 =
        pools ++ [{ db_name := dbn, user_name := un, pool_size := 0 }] := by
      unfold get_pool; rw [hf]
    rw [h2]
    exact ⟨{ db_name := dbn, user_name := un, pool_size := 0 }, by simp, rfl, rfl⟩
  · have h2 : (get_pool pools dbn un).2 = pools := by
      unfold get_pool; rw [hf]
    rw [h2]
    have hp := List.find?_some hf
    simp only [Bool.and_eq_true, beq_iff_eq] at hp
    exact ⟨pl, List.mem_of_find?_eq_some hf, hp⟩

theorem register_auto_database_name {st : LoaderState} {n : String} {r : PgDatabase}
    {st3 : LoaderState} (h : register_auto_database st n = (some r, st3)) : r.name = n := by
  unfold register_auto_database at h
  split at h
  · exact absurd h (by simp)
  · split at h
    · exact absurd h (by simp)
    · split at h
      · exact absurd h (by simp)
      next st2 heq db hfd =>
        have hr : r = { db with db_auto := true } := by
          have h2 := (Prod.mk.injEq _ _ _ _).mp h
          exact (Option.some.inj h2.1).symm
        rw [hr]
        show db.name = n
        exact find_database_name hfd

theorem get_preconfigured_database_name (st : LoaderState) (n : String) :
    ((get_preconfigured_database st n).1).name = n := by
  unfold get_preconfigured_database
  rcases hf : find_database st.databases n with _ | db
  · rcases hr : register_auto_database
        { st with databases := (add_database st.databases n).2 } n with ⟨or, st3⟩
    rcases or with _ | adb
    · rcases hfd : find_database st3.databases n with _ | db3
      · simp [hr, hfd, add_database_name]
      · simp [hr, hfd, find_database_name hfd]
    · simp [hr, register_auto_database_name hr]
  · exact find_database_name hf

/-- Claim C7 (confirmed): a successful `parse_pool` call on a
"user.dbname" pool name locates or creates the pool keyed by that
(database, user) pair and sets its pool-level pool_size override to the
parsed value, -1 when the key was absent; any parameter key other than
pool_size makes the call fail. -/
theorem claim_C7 :
    (∀ (st : LoaderState) (n params : String) (st' : LoaderState),
      parse_pool st n params = (true, st') →
      ∃ un dbn l s,
        parse_pool_name n.data = some (un, dbn) ∧
        parsePairs params.data = some l ∧
        (∀ pr ∈ l, pr.1 = "pool_size") ∧
        (l = [] → s = -1) ∧
        (∀ pr : String × String, l.getLast? = some pr → cf_parse_int pr.2 = some s) ∧
        find_pool st'.pools dbn un =
          some { db_name := dbn, user_name := un, pool_size := s }) ∧
    (∀ (st : LoaderState) (n params : String) (l : List (String × String))
        (pr : String × String),
      parsePairs params.data = some l → pr ∈ l → pr.1 ≠ "pool_size" →
      (parse_pool st n params).1 = false) := by
  constructor
  · intro st n params st' h
    obtain ⟨pp, un, dbn, hkv, hn, hst'⟩ := parse_pool_true_shape h
    have hkv2 := hkv
    rw [kv_loop_eq_parse] at hkv2
    rcases hp : parsePairs params.data with _ | l
    · rw [hp] at hkv2; exact Option.noConfusion hkv2
    · rw [hp, Option.some_bind] at hkv2
      refine ⟨un, dbn, l, pp.pool_size, hn, rfl, foldPairs_pool_all_keys hkv2, ?_, ?_, ?_⟩
      · intro hnil
        have := (foldPairs_pool_size l _ _ hkv2).1 hnil
        rw [this]
      · exact (foldPairs_pool_size l _ _ hkv2).2
      · rw [hst']
        simp only [pool_commit]
        have hname := get_preconfigured_database_name
          { st with users := (get_preconfigured_user st.users un).2 } dbn
        rw [hname]
        exact find_pool_set (get_pool_mem _ dbn un)
  · intro st n params l pr hp hmem hne
    rw [parse_pool_false_iff]
    exact Or.inr (Or.inr (Or.inl ⟨l, hp, pr, hmem, Or.inr hne⟩))

/-- Claim C7 witness: concrete calls. -/
theorem claim_C7_witness :
    (∃ un dbn l s,
      parse_pool_name ("u1.d1" : String).data = some (un, dbn) ∧
      parsePairs ("pool_size=5" : String).data = some l ∧
      (∀ pr ∈ l, pr.1 = "pool_size") ∧
      (l = [] → s = -1) ∧
      (∀ pr : String × String, l.getLast? = some pr → cf_parse_int pr.2 = some s) ∧
      find_pool (parse_pool st0 "u1.d1" "pool_size=5").2.pools dbn un =
        some { db_name := dbn, user_name := un, pool_size := s }) ∧
    (parse_pool st0 "u1.d1" "mode=x").1 = false := by
  refine ⟨claim_C7.1 st0 "u1.d1" "pool_size=5" (parse_pool st0 "u1.d1" "pool_size=5").2
      (by decide),
    claim_C7.2 st0 "u1.d1" "mode=x" [("mode", "x")] ("mode", "x")
      (by decide) (by decide) (by decide)⟩

/-! ### copy_quoted lemmas -/

theorem copy_quoted_go_zero (l : List Char) : copy_quoted_go l 0 = [] := by
  rcases l with _ | ⟨c, _ | ⟨c2, rest2⟩⟩ <;> rfl

theorem copy_quoted_go_length : ∀ (n : Nat) (l : List Char),
    (copy_quoted_go l n).length ≤ n := by
  intro n
  induction n with
  | zero =>
    intro l
    simp [copy_quoted_go_zero]
  | succ m ih =>
    intro l
    rcases l with _ | ⟨c, _ | ⟨c2, rest2⟩⟩
    · simp [copy_quoted_go]
    · simp only [copy_quoted_go]
      split_ifs
      · simp
      · simp
      · have h1 : copy_quoted_go [] m = [] := by cases m <;> rfl
        simp [h1]
    · simp only [copy_quoted_go]
      split_ifs
      · simp
      · have := ih rest2
        simp only [List.length_cons]
        omega
      · have := ih (c2 :: rest2)
        simp only [List.length_cons]
        omega

theorem copy_quoted_go_doubleQuotes :
    ∀ (t : List Char), nulChar ∉ t → ∀ (mem : List Char) (n : Nat),
    copy_quoted_go (doubleQuotes t ++ nulChar :: mem) n = t.take n := by
  intro t
  induction t with
  | nil =>
    intro _ mem n
    cases n with
    | zero => simp [copy_quoted_go_zero]
    | succ m =>
      show copy_quoted_go (doubleQuotes [] ++ nulChar :: mem) (m + 1) = List.take (m + 1) []
      rw [show doubleQuotes [] ++ nulChar :: mem = nulChar :: mem from rfl]
      rcases mem with _ | ⟨x, xs⟩
      · rw [show copy_quoted_go [nulChar] (m + 1) =
            (if nulChar == nulChar then []
             else if nulChar == dquoteChar then []
             else nulChar :: copy_quoted_go [] m) from rfl]
        rw [if_pos (by decide)]
        rfl
      · rw [show copy_quoted_go (nulChar :: x :: xs) (m + 1) =
            (if nulChar == nulChar then []
             else if nulChar == dquoteChar then x :: copy_quoted_go xs m
             else nulChar :: copy_quoted_go (x :: xs) m) from rfl]
        rw [if_pos (by decide)]
        rfl
  | cons c r ih =>
    intro hnul mem n
    have hcn : (c == nulChar) = false := by
      have hne : c ≠ nulChar := fun hh => hnul (by simp [hh])
      simpa using hne
    have hr : nulChar ∉ r := fun hh => hnul (List.mem_cons_of_mem _ hh)
    cases n with
    | zero => simp [copy_quoted_go_zero]
    | succ m =>
      by_cases hq : (c == dquoteChar) = true
      · have hc : c = dquoteChar := by simpa using hq
        subst hc
        have hdq : doubleQuotes (dquoteChar :: r) =
            dquoteChar :: dquoteChar :: doubleQuotes r := by
          simp [doubleQuotes]
        rw [hdq, List.cons_append, List.cons_append]
        simp only [copy_quoted_go, hcn, Bool.false_eq_true, if_false, beq_self_eq_true,
          if_true]
        rw [ih hr mem m]
        rfl
      · have hdq : doubleQuotes (c :: r) = c :: doubleQuotes r := by
          simp [doubleQuotes, hq]
        rw [hdq, List.cons_append]
        rcases hdr : doubleQuotes r with _ | ⟨d, ds⟩
        · have hih := ih hr mem m
          rw [hdr] at hih
          simp only [List.nil_append] at hih ⊢
          simp only [copy_quoted_go, hcn, Bool.false_eq_true, if_false, hq]
          rw [hih]
          rfl
        · have hih := ih hr mem m
          rw [hdr] at hih
          simp only [List.cons_append] at hih ⊢
          simp only [copy_quoted_go, hcn, Bool.false_eq_true, if_false, hq]
          rw [hih]
          rfl

/-- Claim C9 (confirmed): for any source and any memory following its
terminator, `copy_quoted` with buffer length len writes at most len-1
characters before the terminating NUL; on a source whose double quotes
are doubled it writes exactly the unquoted text truncated to len-1; and
`unquote_add_user` stores strings that, with their terminators, fit the
MAX_USERNAME and MAX_PASSWORD buffers. -/
theorem claim_C9 :
    (∀ (src mem : List Char) (len : Nat), 1 ≤ len →
      (copy_quoted src mem len).length ≤ len - 1) ∧
    (∀ (t mem : List Char) (len : Nat), nulChar ∉ t →
      copy_quoted (doubleQuotes t) mem len = t.take (len - 1)) ∧
    (∀ (username password mem1 mem2 : List Char),
      (copy_quoted username mem1 MAX_USERNAME).length + 1 ≤ MAX_USERNAME ∧
      (copy_quoted password mem2 MAX_PASSWORD).length + 1 ≤ MAX_PASSWORD) ∧
    (∀ (users : List PgUser) (username password : List Char),
      unquote_add_user users username password =
        add_user users (String.mk (copy_quoted username [] MAX_USERNAME))
          (String.mk (copy_quoted password [] MAX_PASSWORD))) := by
  have hlen : ∀ (src mem : List Char) (len : Nat),
      (copy_quoted src mem len).length ≤ len - 1 := by
    intro src mem len
    exact copy_quoted_go_length (len - 1) (src ++ nulChar :: mem)
  refine ⟨fun src mem len _ => hlen src mem len, ?_, ?_, fun users u p => rfl⟩
  · intro t mem len hnul
    exact copy_quoted_go_doubleQuotes t hnul mem (len - 1)
  · intro u p m1 m2
    constructor
    · have := hlen u m1 MAX_USERNAME
      unfold MAX_USERNAME at this ⊢
      omega
    · have := hlen p m2 MAX_PASSWORD
      unfold MAX_PASSWORD at this ⊢
      omega

/-- Claim C9 witness: the bound and the collapse at concrete inputs. -/
theorem claim_C9_witness :
    (copy_quoted ("junk" : String).data [] 3).length ≤ 2 ∧
    copy_quoted (doubleQuotes ("ab" : String).data) [] 128 =
      ("ab" : String).data.take 127 := by
  refine ⟨claim_C9.1 ("junk" : String).data [] 3 (by decide), ?_⟩
  exact claim_C9.2.1 ("ab" : String).data [] 128 (by decide)

/-! ### Auth file reload lemmas -/

theorem add_user_mem_name (users : List PgUser) (n p : String) :
    ∃ u ∈ add_user users n p, u.name = n ∧ u.passwd = p := by
  unfold add_user
  rcases hf : find_user users n with _ | u0
  · simp only [Option.isSome_none, Bool.false_eq_true, if_false]
    exact ⟨freshUser n p, by simp, rfl, rfl⟩
  · simp only [Option.isSome_some, if_true]
    refine ⟨{ u0 with passwd := p }, ?_, by simp [find_user_name hf], rfl⟩
    have hmem := List.mem_map_of_mem
      (fun u => if u.name = n then { u with passwd := p } else u) (find_user_mem hf)
    simpa [find_user_name hf] using hmem

theorem applyAuthEntry_mem (users : List PgUser) (e : String × String) :
    ∃ u ∈ applyAuthEntry users e,
      u.name = e.1 ∧ u.passwd = e.2 ∧ u.from_auth_file = true := by
  obtain ⟨u, hm, hn, hp⟩ := add_user_mem_name users e.1 e.2
  unfold applyAuthEntry
  refine ⟨{ u with from_auth_file := true }, ?_, by simp [hn], by simp [hp], rfl⟩
  have hmem := List.mem_map_of_mem
    (fun u => if u.name = e.1 then { u with from_auth_file := true } else u) hm
  simpa [hn] using hmem

theorem add_user_mem_other {users : List PgUser} {u : PgUser} {n : String} (p : String)
    (hm : u ∈ users) (hne : u.name ≠ n) : u ∈ add_user users n p := by
  unfold add_user
  by_cases hf : (find_user users n).isSome = true
  · rw [if_pos hf]
    have hmem := List.mem_map_of_mem
      (fun x => if x.name = n then { x with passwd := p } else x) hm
    simpa [hne] using hmem
  · rw [if_neg hf]
    exact List.mem_append_left _ hm

theorem applyAuthEntry_mem_other {users : List PgUser} {u : PgUser} {e : String × String}
    (hm : u ∈ users) (hne : u.name ≠ e.1) : u ∈ applyAuthEntry users e := by
  unfold applyAuthEntry
  have h1 := add_user_mem_other e.2 hm hne
  have hmem := List.mem_map_of_mem
    (fun x => if x.name = e.1 then { x with from_auth_file := true } else x) h1
  simpa [hne] using hmem

theorem foldl_auth_mem_other :
    ∀ (entries : List (String × String)) (users : List PgUser) (u : PgUser),
    u ∈ users → u.name ∉ entries.map Prod.fst →
    u ∈ entries.foldl applyAuthEntry users := by
  intro entries
  induction entries with
  | nil => intro users u hm _; simpa using hm
  | cons e rest ih =>
    intro users u hm hnin
    simp only [List.map_cons, List.mem_cons, not_or] at hnin
    rw [List.foldl_cons]
    exact ih _ u (applyAuthEntry_mem_other hm hnin.1) hnin.2

theorem applyAuthEntry_names_mem {users : List PgUser} {u : PgUser} (e : String × String)
    (hm : u ∈ users) : ∃ u2 ∈ applyAuthEntry users e, u2.name = u.name := by
  by_cases hne : u.name = e.1
  · obtain ⟨u2, hm2, hn2, _, _⟩ := applyAuthEntry_mem users e
    exact ⟨u2, hm2, by rw [hn2, hne]⟩
  · exact ⟨u, applyAuthEntry_mem_other hm hne, rfl⟩

theorem foldl_auth_names :
    ∀ (entries : List (String × String)) (users : List PgUser) (u : PgUser),
    u ∈ users →
    ∃ u2 ∈ entries.foldl applyAuthEntry users, u2.name = u.name := by
  intro entries
  induction entries with
  | nil => intro users u hm; exact ⟨u, by simpa using hm, rfl⟩
  | cons e rest ih =>
    intro users u hm
    obtain ⟨u2, hm2, hn2⟩ := applyAuthEntry_names_mem e hm
    obtain ⟨u3, hm3, hn3⟩ := ih _ u2 hm2
    rw [List.foldl_cons]
    exact ⟨u3, hm3, by rw [hn3, hn2]⟩

theorem foldl_auth_entry :
    ∀ (entries : List (String × String)) (users : List PgUser) (n pw : String),
    lastVal n entries = some pw →
    ∃ u ∈ entries.foldl applyAuthEntry users,
      u.name = n ∧ u.passwd = pw ∧ u.from_auth_file = true := by
  intro entries
  induction entries with
  | nil => intro users n pw h; exact absurd h (by simp [lastVal])
  | cons e rest ih =>
    intro users n pw h
    simp only [lastVal] at h
    split at h
    · next w hrest =>
      have hw : w = pw := Option.some.inj h
      rw [List.foldl_cons]
      exact ih (applyAuthEntry users e) n pw (by rw [hrest, hw])
    · next hrest =>
      by_cases he : e.1 = n
      · rw [if_pos he] at h
        have hpw : e.2 = pw := Option.some.inj h
        obtain ⟨u, hm, hn, hp, hflag⟩ := applyAuthEntry_mem users e
        have hnin : u.name ∉ rest.map Prod.fst := by
          rw [hn, he]
          intro hmem
          obtain ⟨pr, hpr, hpr2⟩ := List.mem_map.mp hmem
          exact (lastVal_eq_none_iff n rest).mp hrest pr hpr hpr2
        rw [List.foldl_cons]
        exact ⟨u, foldl_auth_mem_other rest (applyAuthEntry users e) u hm hnin,
          by rw [hn, he], by rw [hp, hpw], hflag⟩
      · rw [if_neg he] at h
        exact Option.noConfusion h

theorem disable_users_mem {users : List PgUser} {u : PgUser} (hm : u ∈ users) :
    { u with passwd := "", from_auth_file := false } ∈ disable_users users := by
  unfold disable_users disable_user_cb
  exact List.mem_map_of_mem _ hm

/-- Claim C3 (corrected): a call on a readable file reports success; all
previous users remain present (none deleted); a previous user whose name
is not among the scanned entries — the entries of the well-formed
prefix of the file — ends disabled, with an empty secret and its
provenance flag cleared; a name among the scanned entries ends with the
last secret scanned for it and the flag set.  Users listed after a
malformed line are not among the scanned entries and end disabled even
though the call reports success — see the counterexample. -/
theorem claim_C3 :
    ∀ (st : LoaderState) (content : String),
    (load_auth_file st (some content)).1 = true ∧
    (load_auth_file st none).1 = false ∧
    (∀ u ∈ st.users, ∃ u2 ∈ (load_auth_file st (some content)).2.users,
      u2.name = u.name) ∧
    (∀ u ∈ st.users, u.name ∉ (auth_scan content.data).map Prod.fst →
      { u with passwd := "", from_auth_file := false } ∈
        (load_auth_file st (some content)).2.users) ∧
    (∀ (n pw : String), lastVal n (auth_scan content.data) = some pw →
      ∃ u2 ∈ (load_auth_file st (some content)).2.users,
        u2.name = n ∧ u2.passwd = pw ∧ u2.from_auth_file = true) := by
  intro st content
  refine ⟨rfl, rfl, ?_, ?_, ?_⟩
  · intro u hm
    show ∃ u2 ∈ (auth_scan content.data).foldl applyAuthEntry (disable_users st.users),
      u2.name = u.name
    obtain ⟨u2, hm2, hn2⟩ := foldl_auth_names _ _ _ (disable_users_mem hm)
    exact ⟨u2, hm2, hn2⟩
  · intro u hm hnin
    show { u with passwd := "", from_auth_file := false } ∈
      (auth_scan content.data).foldl applyAuthEntry (disable_users st.users)
    exact foldl_auth_mem_other _ _ _ (disable_users_mem hm) hnin
  · intro n pw h
    show ∃ u2 ∈ (auth_scan content.data).foldl applyAuthEntry (disable_users st.users),
      u2.name = n ∧ u2.passwd = pw ∧ u2.from_auth_file = true
    exact foldl_auth_entry _ _ n pw h

/-- State after loading an auth file holding only user bob. -/
def c3_st1 : LoaderState := (load_auth_file st0 (some "\"bob\" \"b1\"\n")).2

/-- An auth file whose second line is malformed; bob follows it. -/
def c3_file2 : String := "\"alice\" \"a2\"\nbroken\n\"bob\" \"b2\"\n"

/-- Claim C3 counterexample: reloading from a file that still lists bob
(after a malformed line) reports success, yet bob ends with an empty
secret and a cleared provenance flag instead of the secret given in the
file. -/
theorem claim_C3_cex :
    (load_auth_file c3_st1 (some c3_file2)).1 = true ∧
    auth_scan c3_file2.data = [("alice", "a2")] ∧
    find_user (load_auth_file c3_st1 (some c3_file2)).2.users "bob" =
      some { name := "bob", passwd := "", pool_mode := PoolMode.inherit,
             max_user_connections := -1, from_auth_file := false } := by
  refine ⟨by decide, by decide, by decide⟩

/-- Claim C3 witness: a well-formed reload disables bob (absent from the
file) and updates alice. -/
theorem claim_C3_witness :
    (load_auth_file c3_st1 (some "\"alice\" \"a2\"\n")).1 = true ∧
    ({ name := "bob", passwd := "", pool_mode := PoolMode.inherit,
       max_user_connections := -1, from_auth_file := false } : PgUser) ∈
      (load_auth_file c3_st1 (some "\"alice\" \"a2\"\n")).2.users ∧
    (∃ u2 ∈ (load_auth_file c3_st1 (some "\"alice\" \"a2\"\n")).2.users,
      u2.name = "alice" ∧ u2.passwd = "a2" ∧ u2.from_auth_file = true) := by
  have h := claim_C3 c3_st1 "\"alice\" \"a2\"\n"
  refine ⟨h.1, ?_, h.2.2.2.2 "alice" "a2" (by decide)⟩
  have hb := h.2.2.2.1
    ({ name := "bob", passwd := "b1", pool_mode := PoolMode.inherit,
       max_user_connections := -1, from_auth_file := true } : PgUser)
    (by decide) (by decide)
  simpa using hb

end CfPgbouncer
